import Mathlib

/-!
Verification development for the proof-of-work difficulty retargeting core
of the doriancoin repository (src/src/pow.cpp).

The embedding is shallow: 256-bit unsigned arithmetic (`arith_uint256`) is
modelled as `Nat` with explicit reduction `% 2 ^ 256`, 64-bit and 32-bit
machine integers as `Nat`/`Int` with explicit reductions where the C++
code converts or can wrap, and the parent-linked block index as an
inductive chain.  Fallible paths (failed `assert`, `arith_uint256`
division by zero, which throws) are modelled by `Option`, with `none`
standing for the aborted computation.

`arith_uint256` (compact encoding, bit length) and the `CBlockIndex` /
`Consensus::Params` records are not part of the provided sources; they
are modelled from the specification (sections 3, 4.1, 4.2 and 6), which
spells out their semantics bit-exactly.  Everything else is translated
from src/src/pow.cpp.
-/

/-- Fuel-driven binary length so that kernel reduction works; with fuel
`f` it is exact for all `x < 2 ^ f`. -/
def natBitsAux : Nat → Nat → Nat
  | 0, _ => 0
  | fuel + 1, x => if x = 0 then 0 else natBitsAux fuel (x / 2) + 1

/-- Modelled from the spec: `base_uint::bits()`, the position of the
highest set bit plus one (0 for the value 0).  Exact for values below
`2 ^ 513`, which covers every 256-bit value. -/
def natBits (x : Nat) : Nat := natBitsAux 513 x

/-- Reduction of a `Nat` to 64 bits (`uint64_t` wrap-around). -/
def u64 (x : Nat) : Nat := x % 2 ^ 64

/-- C++ conversion of a signed 64-bit value to `uint64_t` (two's
complement reinterpretation), landing in `Nat`. -/
def toUInt64 (v : Int) : Nat := (v % 2 ^ 64).toNat

/-- C++ conversion of a wider signed value to `int32_t` (two's
complement wrap-around). -/
def int64ToInt32 (v : Int) : Int := (v + 2 ^ 31) % 2 ^ 32 - 2 ^ 31

/-- Modelled from the spec: `arith_uint256::SetCompact`, value part.
Unpack exponent `E` (bits 31-24) and 23-bit mantissa `M`; if `E ≤ 3` the
target is `M >> 8*(3-E)`, else `M << 8*(E-3)`, reduced to 256 bits. -/
def setCompactValue (c : Nat) : Nat :=
  let nSize := c % 2 ^ 32 / 2 ^ 24
  let nWord := c % 2 ^ 23
  if nSize ≤ 3 then nWord / 2 ^ (8 * (3 - nSize))
  else nWord * 2 ^ (8 * (nSize - 3)) % 2 ^ 256

/-- Modelled from the spec: `SetCompact` negative flag — mantissa
nonzero and sign bit (bit 23) set. -/
def setCompactNegative (c : Nat) : Bool :=
  decide (c % 2 ^ 23 ≠ 0) && decide (c % 2 ^ 32 / 2 ^ 23 % 2 = 1)

/-- Modelled from the spec: `SetCompact` overflow flag — mantissa
nonzero and `E > 34`, or `E > 33` with `M > 0xff`, or `E > 32` with
`M > 0xffff`. -/
def setCompactOverflow (c : Nat) : Bool :=
  let nSize := c % 2 ^ 32 / 2 ^ 24
  let nWord := c % 2 ^ 23
  decide (nWord ≠ 0) &&
    (decide (34 < nSize) || (decide (0xff < nWord) && decide (33 < nSize)) ||
     (decide (0xffff < nWord) && decide (32 < nSize)))

/-- Modelled from the spec: `arith_uint256::GetCompact` (with the
default `fNegative = false`, the only form pow.cpp uses).  Byte size
from the bit length; mantissa is the top three bytes; if bit 23 of the
mantissa would be set (ambiguous with the sign bit) shift right by 8 and
increment the exponent. -/
def getCompact (x : Nat) : Nat :=
  let nSize := (natBits x + 7) / 8
  let nCompact0 :=
    if nSize ≤ 3 then x % 2 ^ 64 * 2 ^ (8 * (3 - nSize)) % 2 ^ 32
    else x / 2 ^ (8 * (nSize - 3)) % 2 ^ 64 % 2 ^ 32
  let nCompact1 := if 2 ^ 23 ≤ nCompact0 then nCompact0 / 2 ^ 8 else nCompact0
  let nSize1 := if 2 ^ 23 ≤ nCompact0 then nSize + 1 else nSize
  nCompact1 + nSize1 * 2 ^ 24

/-- Modelled from the spec: `CBlockIndex`, a parent-linked view of one
chain entry with `nHeight`, `nTime` (as read by `GetBlockTime`),
`nBits`, and `pprev` (absent exactly at the chain's earliest block). -/
inductive BlockIndex where
  | genesis (nHeight nTime : Int) (nBits : Nat)
  | cons (nHeight nTime : Int) (nBits : Nat) (pprev : BlockIndex)
deriving DecidableEq

def BlockIndex.nHeight : BlockIndex → Int
  | genesis h _ _ => h
  | cons h _ _ _ => h

def BlockIndex.nTime : BlockIndex → Int
  | genesis _ t _ => t
  | cons _ t _ _ => t

def BlockIndex.nBits : BlockIndex → Nat
  | genesis _ _ b => b
  | cons _ _ b _ => b

def BlockIndex.pprev : BlockIndex → Option BlockIndex
  | genesis _ _ _ => none
  | cons _ _ _ p => some p

/-- Modelled from the spec: the `Consensus::Params` fields pow.cpp
reads (spec section 3, ChainParams). -/
structure Params where
  powLimit : Nat
  nPowTargetSpacing : Int
  nPowTargetTimespan : Int
  fPowAllowMinDifficultyBlocks : Bool
  fPowNoRetargeting : Bool
  nLWMAWindow : Int
  nLWMAHeight : Int
  nLWMAFixHeight : Int
  nASERTHeight : Int
  nASERTAnchorBits : Nat
  nASERTHalfLife : Int

/-- Modelled from the spec: `Params::DifficultyAdjustmentInterval()`,
`nPowTargetTimespan / nPowTargetSpacing` with C++ (truncating) signed
division. -/
def difficultyAdjustmentInterval (params : Params) : Int :=
  params.nPowTargetTimespan.tdiv params.nPowTargetSpacing

/-- CheckProofOfWork (src/src/pow.cpp:424). -/
def checkProofOfWork (hash : Nat) (nBits : Nat) (params : Params) : Bool :=
  let bnTarget := setCompactValue nBits
  if setCompactNegative nBits || decide (bnTarget = 0) || setCompactOverflow nBits ||
      decide (params.powLimit < bnTarget) then false
  else if decide (bnTarget < hash) then false
  else true

/-- CalculateNextWorkRequired (src/src/pow.cpp:57).  The multiplication
`bnNew *= nActualTimespan` and the division `bnNew /= nPowTargetTimespan`
go through the 64-bit conversion the spec prescribes for `BigInt256`
(spec section 4.2), and the 256-bit products wrap (`% 2 ^ 256`).
`bnPowLimit.bits() - 1` is the C++ unsigned subtraction; for the valid
parameter records the theorems consider (`powLimit > 0`) the `Nat`
truncated subtraction used here agrees with it.  A zero
`nPowTargetTimespan` would throw in C++ (`uint_error`); here the `Nat`
division simply yields 0, and every theorem touching this path assumes a
positive timespan. -/
def calculateNextWorkRequired (pindexLast : BlockIndex) (nFirstBlockTime : Int)
    (params : Params) : Nat :=
  if params.fPowNoRetargeting then pindexLast.nBits else
  let t0 := pindexLast.nTime - nFirstBlockTime
  let t1 := if t0 < params.nPowTargetTimespan.tdiv 4 then params.nPowTargetTimespan.tdiv 4 else t0
  let nActualTimespan := if t1 > params.nPowTargetTimespan * 4 then params.nPowTargetTimespan * 4 else t1
  let bnNew0 := setCompactValue pindexLast.nBits
  let fShift := natBits bnNew0 > natBits params.powLimit - 1
  let bnNew1 := if fShift then bnNew0 / 2 else bnNew0
  let bnNew2 := bnNew1 * toUInt64 nActualTimespan % 2 ^ 256
  let bnNew3 := bnNew2 / toUInt64 params.nPowTargetTimespan
  let bnNew4 := if fShift then bnNew3 * 2 % 2 ^ 256 else bnNew3
  let bnNew5 := if bnNew4 > params.powLimit then params.powLimit else bnNew4
  getCompact bnNew5

/-- The testnet min-difficulty walk of GetNextWorkRequiredBTC
(src/src/pow.cpp:31-34): skip backwards over blocks that sit on the
proof-of-work limit and are not at a retarget boundary. -/
def btcMinDiffWalk (params : Params) (powLimitCompact : Nat) : BlockIndex → BlockIndex
  | .genesis h t b => .genesis h t b
  | .cons h t b prev =>
    if h.tmod (difficultyAdjustmentInterval params) ≠ 0 ∧ b = powLimitCompact then
      btcMinDiffWalk params powLimitCompact prev
    else .cons h t b prev

/-- The strict parent walk of GetNextWorkRequiredBTC
(src/src/pow.cpp:48-52); `none` models the failed `assert(pindexFirst)`
when the walk runs past the earliest block. -/
def walkBack : BlockIndex → Nat → Option BlockIndex
  | b, 0 => some b
  | .genesis _ _ _, _ + 1 => none
  | .cons _ _ _ prev, n + 1 => walkBack prev n

/-- `blockstogoback` of GetNextWorkRequiredBTC (src/src/pow.cpp:43-45):
the full interval, except one less on the first retarget after the
genesis block. -/
def btcBlocksToGoBack (pindexLast : BlockIndex) (params : Params) : Int :=
  if pindexLast.nHeight + 1 ≠ difficultyAdjustmentInterval params then
    difficultyAdjustmentInterval params
  else difficultyAdjustmentInterval params - 1

/-- GetNextWorkRequiredBTC (src/src/pow.cpp:13).  Only the candidate
header's timestamp is read from `pblock`, so it is passed directly. -/
def getNextWorkRequiredBTC (pindexLast : BlockIndex) (pblockTime : Int)
    (params : Params) : Option Nat :=
  let nProofOfWorkLimit := getCompact params.powLimit
  if (pindexLast.nHeight + 1).tmod (difficultyAdjustmentInterval params) ≠ 0 then
    if params.fPowAllowMinDifficultyBlocks then
      if pblockTime > pindexLast.nTime + params.nPowTargetSpacing * 2 then
        some nProofOfWorkLimit
      else some (btcMinDiffWalk params nProofOfWorkLimit pindexLast).nBits
    else some pindexLast.nBits
  else
    (walkBack pindexLast (btcBlocksToGoBack pindexLast params).toNat).map
      (fun pindexFirst => calculateNextWorkRequired pindexLast pindexFirst.nTime params)

/-- The LWMA accumulation loop (src/src/pow.cpp:128-143, identical in
LWMAv2): weights run from `blocks` at the tip pair down to 1, solvetimes
are clamped to `[1, 6*T]`, and the loop breaks when the parent is
missing.  Returns `(sumWeightedSolvetimes, sumWeights)`. -/
def lwmaSums (T : Int) : BlockIndex → Nat → Int × Int
  | _, 0 => (0, 0)
  | .genesis _ _ _, _ + 1 => (0, 0)
  | .cons _ t _ prev, n + 1 =>
    let solvetime0 := t - prev.nTime
    let solvetime1 := if solvetime0 < 1 then 1 else solvetime0
    let solvetime := if solvetime1 > 6 * T then 6 * T else solvetime1
    let rest := lwmaSums T prev n
    (solvetime * ((n + 1 : Nat) : Int) + rest.1, ((n + 1 : Nat) : Int) + rest.2)

/-- The symmetric 10x cap of LWMA v1 (src/src/pow.cpp:150-156). -/
def lwmaClampSum (sumWS expected : Int) : Int :=
  let s1 := if sumWS < expected.tdiv 10 then expected.tdiv 10 else sumWS
  if s1 > expected * 10 then expected * 10 else s1

/-- The tightened 3x cap of LWMA v2 (src/src/pow.cpp:236-242). -/
def lwmaClampSumV2 (sumWS expected : Int) : Int :=
  let s1 := if sumWS < expected.tdiv 3 then expected.tdiv 3 else sumWS
  if s1 > expected * 3 then expected * 3 else s1

/-- GetNextWorkRequiredLWMA (src/src/pow.cpp:96).  A zero (64-bit)
`expectedWeightedSolvetimes` makes the `arith_uint256` division throw;
that aborted path is `none`. -/
def getNextWorkRequiredLWMA (pindexLast : BlockIndex) (params : Params) : Option Nat :=
  if params.fPowNoRetargeting then some pindexLast.nBits else
  let T := params.nPowTargetSpacing
  let height := pindexLast.nHeight + 1
  let blocks := min params.nLWMAWindow (height - params.nLWMAHeight)
  if blocks < 3 then some pindexLast.nBits else
  let prevTarget := setCompactValue pindexLast.nBits
  let sums := lwmaSums T pindexLast blocks.toNat
  let expected := sums.2 * T
  let sumWS := lwmaClampSum sums.1 expected
  if toUInt64 expected = 0 then none else
  let nextTarget := prevTarget * toUInt64 sumWS % 2 ^ 256 / toUInt64 expected
  let nextTarget2 := if nextTarget > params.powLimit then params.powLimit else nextTarget
  some (getCompact nextTarget2)

/-- The window-start walk of GetNextWorkRequiredLWMAv2
(src/src/pow.cpp:200-203): step back `blocks` parents, stopping early at
the earliest block. -/
def walkBackStop : BlockIndex → Nat → BlockIndex
  | b, 0 => b
  | .genesis h t b, _ + 1 => .genesis h t b
  | .cons _ _ _ prev, n + 1 => walkBackStop prev n

/-- GetNextWorkRequiredLWMAv2 (src/src/pow.cpp:178): like v1 but the
reference target comes from the start of the window and the cap is 3x. -/
def getNextWorkRequiredLWMAv2 (pindexLast : BlockIndex) (params : Params) : Option Nat :=
  if params.fPowNoRetargeting then some pindexLast.nBits else
  let T := params.nPowTargetSpacing
  let height := pindexLast.nHeight + 1
  let blocks := min params.nLWMAWindow (height - params.nLWMAHeight)
  if blocks < 3 then some pindexLast.nBits else
  let referenceTarget := setCompactValue (walkBackStop pindexLast blocks.toNat).nBits
  let sums := lwmaSums T pindexLast blocks.toNat
  let expected := sums.2 * T
  let sumWS := lwmaClampSumV2 sums.1 expected
  if toUInt64 expected = 0 then none else
  let nextTarget := referenceTarget * toUInt64 sumWS % 2 ^ 256 / toUInt64 expected
  let nextTarget2 := if nextTarget > params.powLimit then params.powLimit else nextTarget
  some (getCompact nextTarget2)

/-- The ASERT fixed-point exponent (src/src/pow.cpp:328):
`((timeDelta - T * heightDelta) * 65536) / halfLife` with truncating
signed division. -/
def asertExponent (timeDelta heightDelta T halfLife : Int) : Int :=
  ((timeDelta - T * heightDelta) * 65536).tdiv halfLife

/-- The ASERT exponent decomposition (src/src/pow.cpp:332-350) into an
`int32_t` shift count and a `uint16_t` fractional part in `[0, 65536)`. -/
def asertShiftsFrac (exponent : Int) : Int × Nat :=
  if 0 ≤ exponent then
    (int64ToInt32 (exponent.tdiv (2 ^ 16)), (exponent.tmod (2 ^ 16)).toNat)
  else
    let absExponent := -exponent
    let shifts0 := -int64ToInt32 (absExponent.tdiv (2 ^ 16))
    let remainder := (absExponent.tmod (2 ^ 16)).toNat
    if remainder ≠ 0 then (shifts0 - 1, 65536 - remainder) else (shifts0, 0)

/-- The ASERT cubic (src/src/pow.cpp:358-362), evaluated left-to-right
in `uint64_t`:
`195766423245049*f + 971821376*f*f + 5127*f*f*f + 2^47`. -/
def asertCubic (f : Nat) : Nat :=
  u64 (u64 (u64 (u64 (195766423245049 * f) + u64 (u64 (971821376 * f) * f)) +
    u64 (u64 (u64 (5127 * f) * f) * f)) + 2 ^ 47)

/-- The ASERT factor (src/src/pow.cpp:355-363):
`65536 * 2^(frac/65536)` approximated as `65536 + (cubic >> 48)` in
`uint32_t`. -/
def asertFactor (frac : Nat) : Nat :=
  if 0 < frac then (65536 + asertCubic frac / 2 ^ 48 % 2 ^ 32) % 2 ^ 32 else 65536

/-- The anchor search loop of GetASERTAnchorBlock
(src/src/pow.cpp:282-287); `none` models the failed asserts (walking
past the earliest block, or stopping below `nASERTHeight`). -/
def asertAnchorWalk (asertHeight : Int) : BlockIndex → Option BlockIndex
  | .genesis h t b =>
    if h > asertHeight then none
    else if h = asertHeight then some (.genesis h t b) else none
  | .cons h t b prev =>
    if h > asertHeight then asertAnchorWalk asertHeight prev
    else if h = asertHeight then some (.cons h t b prev) else none

/-- GetASERTAnchorBlock (src/src/pow.cpp:274).  The process-wide cache
`g_asert_anchor` is passed explicitly; a cached block is returned as is,
otherwise the chain is walked. -/
def getASERTAnchorBlock (pindexLast : BlockIndex) (params : Params)
    (cache : Option BlockIndex) : Option BlockIndex :=
  match cache with
  | some pindex => some pindex
  | none => asertAnchorWalk params.nASERTHeight pindexLast

/-- The tail of GetNextWorkRequiredASERT (src/src/pow.cpp:387-395):
floor the target at 1, clamp to the proof-of-work limit, encode. -/
def asertFinish (params : Params) (t : Nat) : Option Nat :=
  let t1 := if t = 0 then 1 else t
  let t2 := if t1 > params.powLimit then params.powLimit else t1
  some (getCompact t2)

/-- GetNextWorkRequiredASERT (src/src/pow.cpp:294). -/
def getNextWorkRequiredASERT (pindexLast : BlockIndex) (params : Params)
    (cache : Option BlockIndex) : Option Nat :=
  if params.fPowNoRetargeting then some pindexLast.nBits else
  match getASERTAnchorBlock pindexLast params cache with
  | none => none
  | some pindexAnchor =>
    match pindexAnchor.pprev with
    | none => none
    | some anchorParent =>
      let anchorTarget := setCompactValue params.nASERTAnchorBits
      let timeDelta := pindexLast.nTime - anchorParent.nTime
      let heightDelta := pindexLast.nHeight + 1 - params.nASERTHeight
      let exponent := asertExponent timeDelta heightDelta params.nPowTargetSpacing params.nASERTHalfLife
      let sf := asertShiftsFrac exponent
      let factor := asertFactor sf.2
      let nextTarget := anchorTarget * factor % 2 ^ 256 / 2 ^ 16
      if 0 < sf.1 then
        if 256 ≤ sf.1 then some (getCompact params.powLimit)
        else asertFinish params (nextTarget * 2 ^ sf.1.toNat % 2 ^ 256)
      else if sf.1 < 0 then
        if 256 ≤ -sf.1 then some (getCompact 1)
        else asertFinish params (nextTarget / 2 ^ (-sf.1).toNat)
      else asertFinish params nextTarget

/-- GetNextWorkRequired (src/src/pow.cpp:399), the height dispatcher. -/
def getNextWorkRequired (pindexLast : BlockIndex) (pblockTime : Int)
    (params : Params) (cache : Option BlockIndex) : Option Nat :=
  let nHeight := pindexLast.nHeight + 1
  if nHeight > params.nASERTHeight then getNextWorkRequiredASERT pindexLast params cache
  else if nHeight ≥ params.nLWMAFixHeight then getNextWorkRequiredLWMAv2 pindexLast params
  else if nHeight ≥ params.nLWMAHeight then getNextWorkRequiredLWMA pindexLast params
  else getNextWorkRequiredBTC pindexLast pblockTime params

/-- A well-formed chain view: heights increase by exactly one from an
earliest block at height 0 (spec section 3, BlockRef). -/
def chainOk : BlockIndex → Bool
  | .genesis h _ _ => h == 0
  | .cons h _ _ prev => h == prev.nHeight + 1 && chainOk prev

/-- Every block of the chain carries a compact target decoding into
`[1, P]` (spec section 3, "valid tip"). -/
def chainBitsOk (P : Nat) : BlockIndex → Bool
  | .genesis _ _ b => decide (1 ≤ setCompactValue b) && decide (setCompactValue b ≤ P)
  | .cons _ _ b prev =>
    decide (1 ≤ setCompactValue b) && decide (setCompactValue b ≤ P) && chainBitsOk P prev

/-- The last `n` parent pairs exist and each solvetime is exactly one
second (the extremely fast chain of spec section 8). -/
def windowSolvetimesOne : BlockIndex → Nat → Bool
  | _, 0 => true
  | .genesis _ _ _, _ + 1 => false
  | .cons _ t _ prev, n + 1 => (t - prev.nTime == 1) && windowSolvetimesOne prev n

/-- The triangular number `1 + 2 + ... + n`, the LWMA weight sum over a
full window of `n` pairs. -/
def triNat : Nat → Nat
  | 0 => 0
  | n + 1 => triNat n + (n + 1)

theorem natBitsAux_zero (fuel : Nat) : natBitsAux fuel 0 = 0 := by
  cases fuel <;> simp [natBitsAux]

theorem natBitsAux_spec (fuel : Nat) :
    ∀ x : Nat, x < 2 ^ fuel →
      x < 2 ^ natBitsAux fuel x ∧ (natBitsAux fuel x = 0 → x = 0) ∧
        (x ≠ 0 → 2 ^ (natBitsAux fuel x - 1) ≤ x) := by
  induction fuel with
  | zero =>
    intro x hx
    simp only [pow_zero, Nat.lt_one_iff] at hx
    subst hx
    simp [natBitsAux_zero]
  | succ f ih =>
    intro x hx
    by_cases hx0 : x = 0
    · subst hx0; simp [natBitsAux_zero]
    · have hstep : natBitsAux (f + 1) x = natBitsAux f (x / 2) + 1 := by
        simp [natBitsAux, hx0]
      have hdiv : x / 2 < 2 ^ f := by
        have h2 : (2 : Nat) ^ (f + 1) = 2 * 2 ^ f := by ring
        omega
      obtain ⟨h1, h2, h3⟩ := ih (x / 2) hdiv
      rw [hstep]
      refine ⟨?_, by omega, ?_⟩
      · have : (2 : Nat) ^ (natBitsAux f (x / 2) + 1) = 2 * 2 ^ natBitsAux f (x / 2) := by ring
        omega
      · intro _
        by_cases hhalf : x / 2 = 0
        · have hb : natBitsAux f (x / 2) = 0 := by rw [hhalf]; exact natBitsAux_zero f
          rw [hb]
          simpa using by omega
        · have hb0 : natBitsAux f (x / 2) ≠ 0 := fun h => hhalf (h2 h)
          have h3' := h3 hhalf
          have hpow : (2 : Nat) ^ (natBitsAux f (x / 2) + 1 - 1) =
              2 ^ (natBitsAux f (x / 2) - 1) * 2 := by
            rw [Nat.add_sub_cancel]
            conv_lhs => rw [show natBitsAux f (x / 2) = natBitsAux f (x / 2) - 1 + 1 by omega]
            rw [pow_succ]
          omega

theorem natBits_lt (x : Nat) (hx : x < 2 ^ 256) : x < 2 ^ natBits x := by
  have h : x < 2 ^ 513 := lt_of_lt_of_le hx (Nat.pow_le_pow_right (by norm_num) (by norm_num))
  exact (natBitsAux_spec 513 x h).1

theorem natBits_le (x : Nat) (hx : x ≠ 0) (h256 : x < 2 ^ 256) :
    2 ^ (natBits x - 1) ≤ x := by
  have h : x < 2 ^ 513 := lt_of_lt_of_le h256 (Nat.pow_le_pow_right (by norm_num) (by norm_num))
  exact (natBitsAux_spec 513 x h).2.2 hx

theorem natBitsAux_succ (f x : Nat) (hx : x ≠ 0) :
    natBitsAux (f + 1) x = natBitsAux f (x / 2) + 1 := by
  simp [natBitsAux, hx]

theorem natBits_pos (x : Nat) (hx : x ≠ 0) : 1 ≤ natBits x := by
  show 1 ≤ natBitsAux 513 x
  rw [show (513 : Nat) = 512 + 1 from rfl, natBitsAux_succ _ _ hx]
  omega

theorem natBits_le_256 (x : Nat) (hx : x < 2 ^ 256) : natBits x ≤ 256 := by
  by_cases hx0 : x = 0
  · subst hx0; simp [natBits, natBitsAux_zero]
  · by_contra hgt
    have h1 : 2 ^ 256 ≤ 2 ^ (natBits x - 1) :=
      Nat.pow_le_pow_right (by norm_num) (by omega)
    have h2 := natBits_le x hx0 hx
    omega

/-- Decoding a packed compact word `mantissa + size * 2^24` with a
23-bit mantissa recovers the expected shifted value. -/
theorem setCompactValue_pack (m s : Nat) (hm : m < 2 ^ 23) (hs : s < 2 ^ 8) :
    setCompactValue (m + s * 2 ^ 24) =
      if s ≤ 3 then m / 2 ^ (8 * (3 - s)) else m * 2 ^ (8 * (s - 3)) % 2 ^ 256 := by
  have h32 : m + s * 2 ^ 24 < 2 ^ 32 := by norm_num at hm hs ⊢; omega
  have e1 : (m + s * 2 ^ 24) % 2 ^ 32 = m + s * 2 ^ 24 := Nat.mod_eq_of_lt h32
  have e2 : (m + s * 2 ^ 24) / 2 ^ 24 = s := by
    have h : (m + 2 ^ 24 * s) / 2 ^ 24 = m / 2 ^ 24 + s :=
      Nat.add_mul_div_left m s (by norm_num)
    have hm24 : m / 2 ^ 24 = 0 := Nat.div_eq_of_lt (by norm_num at hm ⊢; omega)
    omega
  have e3 : (m + s * 2 ^ 24) % 2 ^ 23 = m := by
    have h : s * 2 ^ 24 = s * 2 * 2 ^ 23 := by ring
    rw [h, Nat.add_mul_mod_self_right, Nat.mod_eq_of_lt hm]
  simp only [setCompactValue, e1, e2, e3]

/-- Decoding the compact encoding of a 256-bit value truncates it at
some power of two no larger than the value: the encoder only ever drops
low-order mantissa bits. -/
theorem setCompactValue_getCompact (x : Nat) (hx : x < 2 ^ 256) :
    ∃ e : Nat, setCompactValue (getCompact x) = x / 2 ^ e * 2 ^ e ∧ (x ≠ 0 → 2 ^ e ≤ x) := by
  by_cases hx0 : x = 0
  · subst hx0
    exact ⟨0, by decide, by simp⟩
  · have hb1 := natBits_lt x hx
    have hb2 := natBits_le x hx0 hx
    have hb256 := natBits_le_256 x hx
    have hbpos := natBits_pos x hx0
    set b := natBits x with hbdef
    set nSize := (b + 7) / 8 with hndef
    have hble : b ≤ 8 * nSize := by omega
    have hbge : 8 * nSize ≤ b + 7 := by omega
    have hns32 : nSize ≤ 32 := by omega
    have hns1 : 1 ≤ nSize := by omega
    simp only [getCompact, ← hbdef, ← hndef]
    by_cases hc3 : nSize ≤ 3
    · -- small values: at most three bytes
      set k := 8 * (3 - nSize) with hkdef
      have hk : k = 24 - 8 * nSize := by omega
      have hx8 : x < 2 ^ (8 * nSize) :=
        lt_of_lt_of_le hb1 (Nat.pow_le_pow_right (by norm_num) hble)
      have hprod : x * 2 ^ k < 2 ^ 24 := by
        have h1 : x * 2 ^ k < 2 ^ (8 * nSize) * 2 ^ k :=
          Nat.mul_lt_mul_of_lt_of_le hx8 le_rfl (Nat.pos_pow_of_pos k (by norm_num))
        have h2 : (2 : Nat) ^ (8 * nSize) * 2 ^ k = 2 ^ 24 := by
          rw [← pow_add]; congr 1; omega
        omega
      have hxk : x % 2 ^ 64 = x := Nat.mod_eq_of_lt (by
        have : (2 : Nat) ^ 24 ≤ 2 ^ 64 := Nat.pow_le_pow_right (by norm_num) (by norm_num)
        have hx24 : x < 2 ^ 24 := by
          have := Nat.le_mul_of_pos_right x (Nat.pos_pow_of_pos k (two_pos))
          omega
        omega)
      have hmod32 : x * 2 ^ k % 2 ^ 32 = x * 2 ^ k := Nat.mod_eq_of_lt (by
        have : (2 : Nat) ^ 24 ≤ 2 ^ 32 := Nat.pow_le_pow_right (by norm_num) (by norm_num)
        omega)
      rw [if_pos hc3, hxk, hmod32]
      by_cases h23 : 2 ^ 23 ≤ x * 2 ^ k
      · rw [if_pos h23, if_pos h23]
        by_cases hn2 : nSize ≤ 2
        · -- adjusted, still at most three bytes afterwards
          have hk8 : 8 ≤ k := by omega
          have hdiv : x * 2 ^ k / 2 ^ 8 = x * 2 ^ (k - 8) := by
            conv_lhs => rw [show k = (k - 8) + 8 by omega, pow_add, ← mul_assoc]
            exact Nat.mul_div_cancel _ (by norm_num)
          have hm : x * 2 ^ (k - 8) < 2 ^ 23 := by
            have h1 : x * 2 ^ k / 2 ^ 8 < 2 ^ 16 := by
              rw [Nat.div_lt_iff_lt_mul (by norm_num : (0:Nat) < 2 ^ 8)]
              calc x * 2 ^ k < 2 ^ 24 := hprod
                _ = 2 ^ 16 * 2 ^ 8 := by norm_num
            rw [hdiv] at h1
            have : (2 : Nat) ^ 16 ≤ 2 ^ 23 := by norm_num
            omega
          rw [hdiv, setCompactValue_pack _ _ hm (by omega)]
          rw [if_pos (by omega : nSize + 1 ≤ 3)]
          have he : 8 * (3 - (nSize + 1)) = k - 8 := by omega
          rw [he, Nat.mul_div_cancel _ (Nat.pos_pow_of_pos _ (by norm_num))]
          exact ⟨0, by simp, fun _ => by simpa using Nat.one_le_iff_ne_zero.mpr hx0⟩
        · -- adjusted from exactly three bytes to four
          have hn3 : nSize = 3 := by omega
          have hk0 : k = 0 := by omega
          rw [hk0] at h23 ⊢
          simp only [pow_zero, mul_one] at h23 ⊢
          have hm : x / 2 ^ 8 < 2 ^ 23 := by
            have h1 : x / 2 ^ 8 < 2 ^ 16 := by
              rw [Nat.div_lt_iff_lt_mul (by norm_num : (0:Nat) < 2 ^ 8)]
              have hx24 : x < 2 ^ 24 := by
                have := hprod; rw [hk0] at this; simpa using this
              calc x < 2 ^ 24 := hx24
                _ = 2 ^ 16 * 2 ^ 8 := by norm_num
            have : (2 : Nat) ^ 16 ≤ 2 ^ 23 := by norm_num
            omega
          rw [hn3, setCompactValue_pack _ _ hm (by norm_num)]
          rw [if_neg (by omega : ¬ 3 + 1 ≤ 3)]
          have he : 8 * (3 + 1 - 3) = 8 := by norm_num
          rw [he]
          have hsmall : x / 2 ^ 8 * 2 ^ 8 ≤ x := Nat.div_mul_le_self x (2 ^ 8)
          have hmod : x / 2 ^ 8 * 2 ^ 8 % 2 ^ 256 = x / 2 ^ 8 * 2 ^ 8 := by
            have : (2 : Nat) ^ 256 = 2 ^ 256 := rfl
            exact Nat.mod_eq_of_lt (by omega)
          rw [hmod]
          refine ⟨8, rfl, fun _ => ?_⟩
          have : (2 : Nat) ^ 8 ≤ 2 ^ 23 := by norm_num
          omega
      · -- no adjustment needed
        rw [if_neg h23, if_neg h23]
        have hm : x * 2 ^ k < 2 ^ 23 := by omega
        rw [setCompactValue_pack _ _ hm (by omega)]
        rw [if_pos hc3]
        rw [← hkdef, Nat.mul_div_cancel _ (Nat.pos_pow_of_pos _ (by norm_num))]
        exact ⟨0, by simp, fun _ => by simpa using Nat.one_le_iff_ne_zero.mpr hx0⟩
    · -- large values: more than three bytes
      set j := 8 * (nSize - 3) with hjdef
      have hj8 : 8 ≤ j := by omega
      have hj232 : j ≤ 232 := by omega
      have hm0lt : x / 2 ^ j < 2 ^ 24 := by
        rw [Nat.div_lt_iff_lt_mul (Nat.pos_pow_of_pos j (by norm_num))]
        calc x < 2 ^ b := hb1
          _ ≤ 2 ^ (8 * nSize) := Nat.pow_le_pow_right (by norm_num) hble
          _ = 2 ^ 24 * 2 ^ j := by rw [← pow_add]; congr 1; omega
      have hm0ge : 2 ^ 16 ≤ x / 2 ^ j := by
        rw [Nat.le_div_iff_mul_le (Nat.pos_pow_of_pos j (by norm_num))]
        calc (2 : Nat) ^ 16 * 2 ^ j = 2 ^ (16 + j) := by rw [← pow_add]
          _ ≤ 2 ^ (b - 1) := Nat.pow_le_pow_right (by norm_num) (by omega)
          _ ≤ x := hb2
      have hmods : x / 2 ^ j % 2 ^ 64 % 2 ^ 32 = x / 2 ^ j := by
        have h64 : (2 : Nat) ^ 24 ≤ 2 ^ 64 := Nat.pow_le_pow_right (by norm_num) (by norm_num)
        have h32 : (2 : Nat) ^ 24 ≤ 2 ^ 32 := Nat.pow_le_pow_right (by norm_num) (by norm_num)
        rw [Nat.mod_eq_of_lt (by omega), Nat.mod_eq_of_lt (by omega)]
      rw [if_neg hc3, hmods]
      by_cases h23 : 2 ^ 23 ≤ x / 2 ^ j
      · rw [if_pos h23, if_pos h23]
        have hdd : x / 2 ^ j / 2 ^ 8 = x / 2 ^ (j + 8) := by
          rw [Nat.div_div_eq_div_mul, ← pow_add]
        have hm : x / 2 ^ (j + 8) < 2 ^ 16 := by
          rw [← hdd]
          rw [Nat.div_lt_iff_lt_mul (by norm_num : (0:Nat) < 2 ^ 8)]
          calc x / 2 ^ j < 2 ^ 24 := hm0lt
            _ = 2 ^ 16 * 2 ^ 8 := by norm_num
        rw [hdd, setCompactValue_pack _ _ (by
          have : (2:Nat) ^ 16 ≤ 2 ^ 23 := by norm_num
          omega) (by omega)]
        rw [if_neg (by omega : ¬ nSize + 1 ≤ 3)]
        have he : 8 * (nSize + 1 - 3) = j + 8 := by omega
        rw [he]
        have hmod : x / 2 ^ (j + 8) * 2 ^ (j + 8) % 2 ^ 256 = x / 2 ^ (j + 8) * 2 ^ (j + 8) := by
          refine Nat.mod_eq_of_lt ?_
          calc x / 2 ^ (j + 8) * 2 ^ (j + 8) < 2 ^ 16 * 2 ^ (j + 8) :=
                Nat.mul_lt_mul_of_lt_of_le hm le_rfl (Nat.pos_pow_of_pos _ (by norm_num))
            _ = 2 ^ (16 + (j + 8)) := by rw [← pow_add]
            _ ≤ 2 ^ 256 := Nat.pow_le_pow_right (by norm_num) (by omega)
        rw [hmod]
        refine ⟨j + 8, rfl, fun _ => ?_⟩
        have h1 : 2 ^ 23 * 2 ^ j ≤ x := by
          rw [← Nat.le_div_iff_mul_le (Nat.pos_pow_of_pos j (by norm_num))]
          exact h23
        calc (2 : Nat) ^ (j + 8) = 2 ^ 8 * 2 ^ j := by rw [← pow_add]; congr 1; omega
          _ ≤ 2 ^ 23 * 2 ^ j := by
            have : (2:Nat) ^ 8 ≤ 2 ^ 23 := by norm_num
            exact Nat.mul_le_mul_right _ this
          _ ≤ x := h1
      · rw [if_neg h23, if_neg h23]
        have hm : x / 2 ^ j < 2 ^ 23 := by omega
        rw [setCompactValue_pack _ _ hm (by omega)]
        rw [if_neg hc3, ← hjdef]
        have hmod : x / 2 ^ j * 2 ^ j % 2 ^ 256 = x / 2 ^ j * 2 ^ j := by
          refine Nat.mod_eq_of_lt ?_
          calc x / 2 ^ j * 2 ^ j < 2 ^ 23 * 2 ^ j :=
                Nat.mul_lt_mul_of_lt_of_le hm le_rfl (Nat.pos_pow_of_pos _ (by norm_num))
            _ = 2 ^ (23 + j) := by rw [← pow_add]
            _ ≤ 2 ^ 256 := Nat.pow_le_pow_right (by norm_num) (by omega)
        rw [hmod]
        refine ⟨j, rfl, fun _ => ?_⟩
        have h1 : 2 ^ 16 * 2 ^ j ≤ x := by
          rw [← Nat.le_div_iff_mul_le (Nat.pos_pow_of_pos j (by norm_num))]
          exact hm0ge
        have h2 : (2 : Nat) ^ j ≤ 2 ^ 16 * 2 ^ j :=
          Nat.le_mul_of_pos_left _ (by norm_num)
        omega

theorem setCompactValue_getCompact_le (x : Nat) (hx : x < 2 ^ 256) :
    setCompactValue (getCompact x) ≤ x := by
  obtain ⟨e, he, _⟩ := setCompactValue_getCompact x hx
  rw [he]
  exact Nat.div_mul_le_self x (2 ^ e)

theorem setCompactValue_getCompact_pos (x : Nat) (hx : x < 2 ^ 256) (h1 : 1 ≤ x) :
    1 ≤ setCompactValue (getCompact x) := by
  obtain ⟨e, he, hle⟩ := setCompactValue_getCompact x hx
  rw [he]
  have h2 := hle (by omega)
  have h3 : 1 ≤ x / 2 ^ e := (Nat.one_le_div_iff (Nat.pos_pow_of_pos e (by norm_num))).mpr h2
  have h4 : 1 ≤ (2 : Nat) ^ e := Nat.one_le_two_pow
  calc 1 = 1 * 1 := by norm_num
    _ ≤ x / 2 ^ e * 2 ^ e := Nat.mul_le_mul h3 h4

theorem setCompactValue_getCompact_half (x : Nat) (hx : x < 2 ^ 256) :
    x / 2 ≤ setCompactValue (getCompact x) := by
  by_cases hx0 : x = 0
  · subst hx0; simp
  · obtain ⟨e, he, hle⟩ := setCompactValue_getCompact x hx
    rw [he]
    have hd := hle hx0
    set d := (2 : Nat) ^ e with hddef
    have hdpos : 0 < d := Nat.pos_pow_of_pos e (by norm_num)
    have hmod := Nat.div_add_mod x d
    have hcomm : d * (x / d) = x / d * d := Nat.mul_comm _ _
    rw [hcomm] at hmod
    have hr : x % d < d := Nat.mod_lt x hdpos
    have hq : 1 ≤ x / d := (Nat.one_le_div_iff hdpos).mpr hd
    have hp : d ≤ x / d * d := by
      calc d = 1 * d := (one_mul d).symm
        _ ≤ x / d * d := Nat.mul_le_mul_right d hq
    omega

theorem chainOk_height_nonneg (c : BlockIndex) (h : chainOk c = true) : 0 ≤ c.nHeight := by
  induction c with
  | genesis hh t b =>
    simp only [chainOk, beq_iff_eq] at h
    simp [BlockIndex.nHeight, h]
  | cons hh t b prev ih =>
    simp only [chainOk, Bool.and_eq_true, beq_iff_eq] at h
    have := ih h.2
    simp only [BlockIndex.nHeight] at *
    omega

/-- On a well-formed chain a parent walk of `n ≤ height` steps succeeds
and lands exactly `n` heights below the tip. -/
theorem walkBack_chainOk (c : BlockIndex) (hc : chainOk c = true) :
    ∀ n : Nat, (n : Int) ≤ c.nHeight →
      ∃ b, walkBack c n = some b ∧ b.nHeight = c.nHeight - n ∧ chainOk b = true := by
  induction c with
  | genesis hh t bb =>
    intro n hn
    simp only [chainOk, beq_iff_eq] at hc
    simp only [BlockIndex.nHeight, hc] at hn
    have hn0 : n = 0 := by exact_mod_cast Int.le_antisymm hn (by positivity)
    subst hn0
    exact ⟨.genesis hh t bb, rfl, by simp [BlockIndex.nHeight, hc], by simp [chainOk, hc]⟩
  | cons hh t bb prev ih =>
    intro n hn
    simp only [chainOk, Bool.and_eq_true, beq_iff_eq] at hc
    match n with
    | 0 =>
      refine ⟨.cons hh t bb prev, rfl, by simp [BlockIndex.nHeight], ?_⟩
      simp [chainOk, hc.1, hc.2]
    | m + 1 =>
      have hm : (m : Int) ≤ prev.nHeight := by
        simp only [BlockIndex.nHeight] at hn
        push_cast at hn
        omega
      obtain ⟨b, hb1, hb2, hb3⟩ := ih hc.2 m hm
      refine ⟨b, ?_, ?_, hb3⟩
      · simpa [walkBack] using hb1
      · simp only [BlockIndex.nHeight] at *
        push_cast
        omega

theorem chainBitsOk_nBits (P : Nat) (c : BlockIndex) (h : chainBitsOk P c = true) :
    1 ≤ setCompactValue c.nBits ∧ setCompactValue c.nBits ≤ P := by
  cases c with
  | genesis hh t b =>
    simp only [chainBitsOk, Bool.and_eq_true, decide_eq_true_eq] at h
    exact ⟨h.1, h.2⟩
  | cons hh t b prev =>
    simp only [chainBitsOk, Bool.and_eq_true, decide_eq_true_eq] at h
    exact ⟨h.1.1, h.1.2⟩

theorem btcMinDiffWalk_chainBitsOk (P : Nat) (params : Params) (l : Nat) (c : BlockIndex)
    (h : chainBitsOk P c = true) :
    chainBitsOk P (btcMinDiffWalk params l c) = true := by
  induction c with
  | genesis hh t b => simpa [btcMinDiffWalk] using h
  | cons hh t b prev ih =>
    simp only [chainBitsOk, Bool.and_eq_true, decide_eq_true_eq] at h
    unfold btcMinDiffWalk
    split
    · exact ih h.2
    · simp only [chainBitsOk, Bool.and_eq_true, decide_eq_true_eq]
      exact ⟨⟨h.1.1, h.1.2⟩, h.2⟩

theorem triNat_ge (n : Nat) (h : 3 ≤ n) : 6 ≤ triNat n := by
  induction n with
  | zero => omega
  | succ m ih =>
    by_cases hm : 3 ≤ m
    · have := ih hm
      simp only [triNat]
      omega
    · have hm3 : m = 2 := by omega
      subst hm3
      decide

/-- A full window of unit solvetimes: every solvetime survives the
clamps as 1, so both accumulated sums equal the triangular weight sum. -/
theorem lwmaSums_ones (T : Int) (hT : 1 ≤ T) :
    ∀ (n : Nat) (c : BlockIndex), windowSolvetimesOne c n = true →
      lwmaSums T c n = ((triNat n : Int), (triNat n : Int)) := by
  intro n
  induction n with
  | zero => intro c _; simp [lwmaSums, triNat]
  | succ m ih =>
    intro c hw
    cases c with
    | genesis hh t b => simp [windowSolvetimesOne] at hw
    | cons hh t b prev =>
      simp only [windowSolvetimesOne, Bool.and_eq_true, beq_iff_eq] at hw
      have hst : t - prev.nTime = 1 := hw.1
      have hrest := ih prev hw.2
      simp only [lwmaSums, hst, hrest]
      have h1 : ¬ ((1 : Int) < 1) := by omega
      have h2 : ¬ ((1 : Int) > 6 * T) := by omega
      simp only [if_neg h1, if_neg h2, triNat, Prod.mk.injEq]
      constructor <;> (push_cast; ring)

/-- The final floor-at-1 / clamp / encode sequence of ASERT, expressed
through `min` and `max`. -/
theorem asertFinish_eq (params : Params) (t : Nat) :
    asertFinish params t = some (getCompact (min (max t 1) params.powLimit)) := by
  simp only [asertFinish]
  have heq : (if (if t = 0 then 1 else t) > params.powLimit then params.powLimit
      else if t = 0 then 1 else t) = min (max t 1) params.powLimit := by
    split_ifs <;> omega
  rw [heq]

theorem asertFinish_bounds (params : Params) (t : Nat) (ht : t < 2 ^ 256)
    (hP1 : 1 ≤ params.powLimit) (hP : params.powLimit < 2 ^ 256) (r : Nat)
    (hr : asertFinish params t = some r) :
    1 ≤ setCompactValue r ∧ setCompactValue r ≤ params.powLimit := by
  rw [asertFinish_eq] at hr
  injection hr with hr
  subst hr
  have hv1 : 1 ≤ min (max t 1) params.powLimit := by omega
  have hv2 : min (max t 1) params.powLimit ≤ params.powLimit := by omega
  have hvlt : min (max t 1) params.powLimit < 2 ^ 256 := by omega
  exact ⟨setCompactValue_getCompact_pos _ hvlt hv1,
    le_trans (setCompactValue_getCompact_le _ hvlt) hv2⟩

theorem clampEncode_le (P v : Nat) (hP : P < 2 ^ 256) (hv : v < 2 ^ 256) :
    setCompactValue (getCompact (if v > P then P else v)) ≤ P := by
  split_ifs with h
  · exact setCompactValue_getCompact_le P hP
  · exact le_trans (setCompactValue_getCompact_le v hv) (by omega)

theorem getNextWorkRequiredASERT_bounds (c : BlockIndex) (params : Params)
    (cache : Option BlockIndex)
    (hP1 : 1 ≤ params.powLimit) (hP : params.powLimit < 2 ^ 256)
    (htip1 : 1 ≤ setCompactValue c.nBits) (htip2 : setCompactValue c.nBits ≤ params.powLimit) :
    ∀ r, getNextWorkRequiredASERT c params cache = some r →
      1 ≤ setCompactValue r ∧ setCompactValue r ≤ params.powLimit := by
  intro r hr
  simp only [getNextWorkRequiredASERT] at hr
  split at hr
  · injection hr with hr; subst hr; exact ⟨htip1, htip2⟩
  · split at hr
    · exact absurd hr (by simp)
    · split at hr
      · exact absurd hr (by simp)
      · have hnt : ∀ A F : Nat, A * F % 2 ^ 256 / 2 ^ 16 < 2 ^ 256 := fun A F =>
          lt_of_le_of_lt (Nat.div_le_self _ _) (Nat.mod_lt _ (by norm_num))
        split at hr
        · split at hr
          · injection hr with hr; subst hr
            exact ⟨setCompactValue_getCompact_pos _ hP hP1,
              setCompactValue_getCompact_le _ hP⟩
          · exact asertFinish_bounds params _ (Nat.mod_lt _ (by norm_num)) hP1 hP r hr
        · split at hr
          · split at hr
            · injection hr with hr; subst hr
              refine ⟨setCompactValue_getCompact_pos 1 (by norm_num) le_rfl, ?_⟩
              exact le_trans (setCompactValue_getCompact_le 1 (by norm_num)) hP1
            · exact asertFinish_bounds params _
                (lt_of_le_of_lt (Nat.div_le_self _ _) (hnt _ _)) hP1 hP r hr
          · exact asertFinish_bounds params _ (hnt _ _) hP1 hP r hr

theorem getNextWorkRequiredLWMA_le (c : BlockIndex) (params : Params)
    (hP : params.powLimit < 2 ^ 256) (htip2 : setCompactValue c.nBits ≤ params.powLimit) :
    ∀ r, getNextWorkRequiredLWMA c params = some r →
      setCompactValue r ≤ params.powLimit := by
  intro r hr
  simp only [getNextWorkRequiredLWMA] at hr
  split at hr
  · injection hr with hr; subst hr; exact htip2
  · split at hr
    · injection hr with hr; subst hr; exact htip2
    · split at hr
      · exact absurd hr (by simp)
      · injection hr with hr; subst hr
        exact clampEncode_le _ _ hP
          (lt_of_le_of_lt (Nat.div_le_self _ _) (Nat.mod_lt _ (by norm_num)))

theorem getNextWorkRequiredLWMAv2_le (c : BlockIndex) (params : Params)
    (hP : params.powLimit < 2 ^ 256) (htip2 : setCompactValue c.nBits ≤ params.powLimit) :
    ∀ r, getNextWorkRequiredLWMAv2 c params = some r →
      setCompactValue r ≤ params.powLimit := by
  intro r hr
  simp only [getNextWorkRequiredLWMAv2] at hr
  split at hr
  · injection hr with hr; subst hr; exact htip2
  · split at hr
    · injection hr with hr; subst hr; exact htip2
    · split at hr
      · exact absurd hr (by simp)
      · injection hr with hr; subst hr
        exact clampEncode_le _ _ hP
          (lt_of_le_of_lt (Nat.div_le_self _ _) (Nat.mod_lt _ (by norm_num)))

theorem calculateNextWorkRequired_le (c : BlockIndex) (ft : Int) (params : Params)
    (hP : params.powLimit < 2 ^ 256) (htip2 : setCompactValue c.nBits ≤ params.powLimit) :
    setCompactValue (calculateNextWorkRequired c ft params) ≤ params.powLimit := by
  simp only [calculateNextWorkRequired]
  split
  · exact htip2
  · apply clampEncode_le _ _ hP
    split
    · exact Nat.mod_lt _ (by norm_num)
    · exact lt_of_le_of_lt (Nat.div_le_self _ _) (Nat.mod_lt _ (by norm_num))

theorem getNextWorkRequiredBTC_le (c : BlockIndex) (pt : Int) (params : Params)
    (hP : params.powLimit < 2 ^ 256)
    (hbits : chainBitsOk params.powLimit c = true) :
    ∀ r, getNextWorkRequiredBTC c pt params = some r →
      setCompactValue r ≤ params.powLimit := by
  intro r hr
  simp only [getNextWorkRequiredBTC] at hr
  split at hr
  · split at hr
    · split at hr
      · injection hr with hr; subst hr
        exact setCompactValue_getCompact_le _ hP
      · injection hr with hr; subst hr
        exact (chainBitsOk_nBits _ _
          (btcMinDiffWalk_chainBitsOk _ params _ c hbits)).2
    · injection hr with hr; subst hr
      exact (chainBitsOk_nBits _ _ hbits).2
  · rcases hw : walkBack c (btcBlocksToGoBack c params).toNat with _ | first
    · rw [hw] at hr; exact absurd hr (by simp)
    · rw [hw] at hr
      simp only [Option.map_some'] at hr
      injection hr with hr; subst hr
      exact calculateNextWorkRequired_le c first.nTime params hP
        (chainBitsOk_nBits _ _ hbits).2

/-- C1: `check_pow` returns true if and only if the compact value
decodes with `negative = false` and `overflow = false` to a nonzero
target that is at most `pow_limit`, and the hash (as a 256-bit unsigned
integer) is at most the target; in every other case it returns false,
and the boolean is the entire contract. -/
theorem checkProofOfWork_contract (hash nBits : Nat) (params : Params) :
    checkProofOfWork hash nBits params = true ↔
      (setCompactNegative nBits = false ∧ setCompactOverflow nBits = false ∧
       setCompactValue nBits ≠ 0 ∧ setCompactValue nBits ≤ params.powLimit ∧
       hash ≤ setCompactValue nBits) := by
  constructor
  · intro h
    simp only [checkProofOfWork] at h
    by_cases hc1 : (setCompactNegative nBits || decide (setCompactValue nBits = 0) ||
        setCompactOverflow nBits || decide (params.powLimit < setCompactValue nBits)) = true
    · rw [if_pos hc1] at h; exact absurd h (by simp)
    · rw [if_neg hc1] at h
      by_cases hc2 : decide (setCompactValue nBits < hash) = true
      · rw [if_pos hc2] at h; exact absurd h (by simp)
      · simp only [Bool.or_eq_true, decide_eq_true_eq, not_or, Bool.not_eq_true] at hc1
        simp only [decide_eq_true_eq, not_lt] at hc2
        obtain ⟨⟨⟨hn, hz⟩, ho⟩, hle⟩ := hc1
        exact ⟨hn, ho, hz, by omega, hc2⟩
  · rintro ⟨hn, ho, hz, hle, hh⟩
    have hb2 : decide (setCompactValue nBits = 0) = false := decide_eq_false hz
    have hb4 : decide (params.powLimit < setCompactValue nBits) = false :=
      decide_eq_false (by omega)
    have hb5 : decide (setCompactValue nBits < hash) = false := decide_eq_false (by omega)
    simp [checkProofOfWork, hn, ho, hb2, hb4, hb5]

/-- C6 counterexample: `check_pow` does not treat the target as an
exclusive bound.  At the canonical compact 0x01010000 (target 1, valid
and below `pow_limit`), a hash exactly equal to the decoded target is
accepted, not rejected. -/
theorem checkProofOfWork_equal_hash_accepted :
    setCompactNegative 0x01010000 = false ∧
    setCompactOverflow 0x01010000 = false ∧
    setCompactValue 0x01010000 = 1 ∧
    setCompactValue 0x01010000 ≤
      (Params.mk 65535 150 302400 false false 45 0 0 0 0x01010000 3600).powLimit ∧
    checkProofOfWork (setCompactValue 0x01010000) 0x01010000
      (Params.mk 65535 150 302400 false false 45 0 0 0 0x01010000 3600) = true := by
  decide

/-- C6 (amended): the target is an inclusive upper bound on the block
hash: for every compact value whose decoding is non-negative,
non-overflowing, nonzero and at most `pow_limit`, `check_pow` accepts a
hash that is exactly equal to the decoded target (it only rejects hashes
strictly greater). -/
theorem checkProofOfWork_inclusive_bound (nBits : Nat) (params : Params)
    (h1 : setCompactNegative nBits = false) (h2 : setCompactOverflow nBits = false)
    (h3 : setCompactValue nBits ≠ 0) (h4 : setCompactValue nBits ≤ params.powLimit) :
    checkProofOfWork (setCompactValue nBits) nBits params = true := by
  have hb2 : decide (setCompactValue nBits = 0) = false := decide_eq_false h3
  have hb4 : decide (params.powLimit < setCompactValue nBits) = false :=
    decide_eq_false (by omega)
  have hb5 : decide (setCompactValue nBits < setCompactValue nBits) = false :=
    decide_eq_false (lt_irrefl _)
  simp [checkProofOfWork, h1, h2, hb2, hb4, hb5]

/-- C6 witness. -/
theorem checkProofOfWork_inclusive_bound_witness :
    checkProofOfWork (setCompactValue 0x03123456) 0x03123456
      (Params.mk (2 ^ 236 - 1) 150 302400 false false 45 0 0 0 0x01010000 3600) = true :=
  checkProofOfWork_inclusive_bound 0x03123456 _ (by decide) (by decide) (by decide) (by decide)

/-- C2: with `asert_height ≥ lwma_fix_height ≥ lwma_height ≥ 0`, the
dispatcher selects ASERT for `h > asert_height`, LWMA v2 for
`lwma_fix_height ≤ h ≤ asert_height`, LWMA v1 for
`lwma_height ≤ h < lwma_fix_height`, and BTC for `h < lwma_height`; in
particular at `h = asert_height` exactly, LWMA v2 (not ASERT) runs. -/
theorem getNextWorkRequired_dispatch (c : BlockIndex) (pt : Int) (params : Params)
    (cache : Option BlockIndex)
    (h0 : 0 ≤ params.nLWMAHeight)
    (h1 : params.nLWMAHeight ≤ params.nLWMAFixHeight)
    (h2 : params.nLWMAFixHeight ≤ params.nASERTHeight) :
    (params.nASERTHeight < c.nHeight + 1 →
      getNextWorkRequired c pt params cache = getNextWorkRequiredASERT c params cache) ∧
    (params.nLWMAFixHeight ≤ c.nHeight + 1 → c.nHeight + 1 ≤ params.nASERTHeight →
      getNextWorkRequired c pt params cache = getNextWorkRequiredLWMAv2 c params) ∧
    (params.nLWMAHeight ≤ c.nHeight + 1 → c.nHeight + 1 < params.nLWMAFixHeight →
      getNextWorkRequired c pt params cache = getNextWorkRequiredLWMA c params) ∧
    (c.nHeight + 1 < params.nLWMAHeight →
      getNextWorkRequired c pt params cache = getNextWorkRequiredBTC c pt params) ∧
    (c.nHeight + 1 = params.nASERTHeight →
      getNextWorkRequired c pt params cache = getNextWorkRequiredLWMAv2 c params) := by
  simp only [getNextWorkRequired]
  refine ⟨fun ha => ?_, fun hf hle => ?_, fun hl hfl => ?_, fun hb => ?_, fun he => ?_⟩ <;>
    split_ifs <;> first | rfl | omega

/-- C2 witness. -/
theorem getNextWorkRequired_dispatch_witness :
    getNextWorkRequired (BlockIndex.genesis 5 0 17) 0
        (Params.mk 65535 150 302400 false false 45 2 4 8 0x01010000 3600) none =
      getNextWorkRequiredLWMAv2 (BlockIndex.genesis 5 0 17)
        (Params.mk 65535 150 302400 false false 45 2 4 8 0x01010000 3600) :=
  (getNextWorkRequired_dispatch (BlockIndex.genesis 5 0 17) 0
    (Params.mk 65535 150 302400 false false 45 2 4 8 0x01010000 3600) none
    (by decide) (by decide) (by decide)).2.1 (by decide) (by decide)

/-- C10: for every fractional part `f` with `1 ≤ f ≤ 65535` the ASERT
cubic sum stays strictly below `2^64`, so the 64-bit evaluation never
wraps, the shift by 48 and the 32-bit cast are lossless, and the factor
equals `65536 + ⌊sum / 2^48⌋` exactly — hence the factor is below
131072. -/
theorem asert_cubic_no_overflow (f : Nat) (h1 : 1 ≤ f) (h2 : f ≤ 65535) :
    195766423245049 * f + 971821376 * f ^ 2 + 5127 * f ^ 3 + 2 ^ 47 < 2 ^ 64 ∧
    asertFactor f =
      65536 + (195766423245049 * f + 971821376 * f ^ 2 + 5127 * f ^ 3 + 2 ^ 47) / 2 ^ 48 ∧
    asertFactor f < 131072 := by
  have hA : 195766423245049 * f ≤ 195766423245049 * 65535 := Nat.mul_le_mul_left _ h2
  have hB : 971821376 * f * f ≤ 971821376 * 65535 * 65535 :=
    Nat.mul_le_mul (Nat.mul_le_mul_left _ h2) h2
  have hC : 5127 * f * f * f ≤ 5127 * 65535 * 65535 * 65535 :=
    Nat.mul_le_mul (Nat.mul_le_mul (Nat.mul_le_mul_left _ h2) h2) h2
  have htot : 195766423245049 * f + 971821376 * f * f + 5127 * f * f * f + 2 ^ 47 < 2 ^ 64 :=
    lt_of_le_of_lt (add_le_add (add_le_add (add_le_add hA hB) hC) le_rfl) (by norm_num)
  have hf0 : 0 < f := h1
  have hsq : f ^ 2 = f * f := sq f
  have hcb : f ^ 3 = f * f * f := by ring
  have hABlt : 195766423245049 * f + 971821376 * f * f < 2 ^ 64 :=
    lt_of_le_of_lt (add_le_add hA hB) (by norm_num)
  have hABClt : 195766423245049 * f + 971821376 * f * f + 5127 * f * f * f < 2 ^ 64 :=
    lt_of_le_of_lt (add_le_add (add_le_add hA hB) hC) (by norm_num)
  have e1 : u64 (195766423245049 * f) = 195766423245049 * f :=
    Nat.mod_eq_of_lt (lt_of_le_of_lt hA (by norm_num))
  have e2a : u64 (971821376 * f) = 971821376 * f :=
    Nat.mod_eq_of_lt (lt_of_le_of_lt (Nat.mul_le_mul_left _ h2) (by norm_num))
  have e2 : u64 (u64 (971821376 * f) * f) = 971821376 * f * f := by
    rw [e2a]; exact Nat.mod_eq_of_lt (lt_of_le_of_lt hB (by norm_num))
  have e3a : u64 (5127 * f) = 5127 * f :=
    Nat.mod_eq_of_lt (lt_of_le_of_lt (Nat.mul_le_mul_left _ h2) (by norm_num))
  have e3b : u64 (u64 (5127 * f) * f) = 5127 * f * f := by
    rw [e3a]
    exact Nat.mod_eq_of_lt (lt_of_le_of_lt (Nat.mul_le_mul (Nat.mul_le_mul_left _ h2) h2)
      (by norm_num))
  have e3 : u64 (u64 (u64 (5127 * f) * f) * f) = 5127 * f * f * f := by
    rw [e3b]; exact Nat.mod_eq_of_lt (lt_of_le_of_lt hC (by norm_num))
  have e4 : u64 (u64 (195766423245049 * f) + u64 (u64 (971821376 * f) * f)) =
      195766423245049 * f + 971821376 * f * f := by
    rw [e1, e2]; exact Nat.mod_eq_of_lt hABlt
  have e5 : u64 (u64 (u64 (195766423245049 * f) + u64 (u64 (971821376 * f) * f)) +
      u64 (u64 (u64 (5127 * f) * f) * f)) =
      195766423245049 * f + 971821376 * f * f + 5127 * f * f * f := by
    rw [e4, e3]; exact Nat.mod_eq_of_lt hABClt
  have e6 : asertCubic f =
      195766423245049 * f + 971821376 * f * f + 5127 * f * f * f + 2 ^ 47 := by
    unfold asertCubic
    rw [e5]; exact Nat.mod_eq_of_lt htot
  have hq : asertCubic f / 2 ^ 48 < 2 ^ 16 := by
    rw [e6, Nat.div_lt_iff_lt_mul (by norm_num : (0:Nat) < 2 ^ 48)]
    calc 195766423245049 * f + 971821376 * f * f + 5127 * f * f * f + 2 ^ 47
        < 2 ^ 64 := htot
      _ = 2 ^ 16 * 2 ^ 48 := by norm_num
  have hqm : asertCubic f / 2 ^ 48 % 2 ^ 32 = asertCubic f / 2 ^ 48 :=
    Nat.mod_eq_of_lt (lt_of_lt_of_le hq (by norm_num))
  have hout : (65536 + asertCubic f / 2 ^ 48) % 2 ^ 32 = 65536 + asertCubic f / 2 ^ 48 :=
    Nat.mod_eq_of_lt (by omega)
  refine ⟨?_, ?_, ?_⟩
  · calc 195766423245049 * f + 971821376 * f ^ 2 + 5127 * f ^ 3 + 2 ^ 47
        = 195766423245049 * f + 971821376 * f * f + 5127 * f * f * f + 2 ^ 47 := by
          rw [hsq, hcb]; ring
      _ < 2 ^ 64 := htot
  · unfold asertFactor
    rw [if_pos hf0, hqm, hout, e6, hsq, hcb]
    ring_nf
  · unfold asertFactor
    rw [if_pos hf0, hqm, hout]
    omega

/-- C3 counterexample: with parameters satisfying the section-3
invariants (timespan a multiple of spacing, ordered activation heights,
round-tripping `pow_limit`) and a well-formed tip whose every block
carries a valid target in `[1, pow_limit]`, the dispatched LWMA v1
retargeter returns the compact value 0, which decodes to 0 — outside
`[1, pow_limit]`.  (Tip target 1, window of three one-second solvetimes,
`T = 150`: the 10x cap makes `prev_target * (expected/10) / expected`
vanish, and LWMA has no floor at 1.) -/
theorem getNextWorkRequired_zero_target_counterexample :
    (1500 : Int).tmod 150 = 0 ∧
    ((1000000 : Int) ≥ 1000000 ∧ (1000000 : Int) ≥ 1 ∧ (1 : Int) ≥ 0) ∧
    setCompactValue (getCompact 65535) = 65535 ∧
    chainOk (BlockIndex.cons 3 3 0x01010000 (BlockIndex.cons 2 2 0x01010000
      (BlockIndex.cons 1 1 0x01010000 (BlockIndex.genesis 0 0 0x01010000)))) = true ∧
    chainBitsOk 65535 (BlockIndex.cons 3 3 0x01010000 (BlockIndex.cons 2 2 0x01010000
      (BlockIndex.cons 1 1 0x01010000 (BlockIndex.genesis 0 0 0x01010000)))) = true ∧
    getNextWorkRequired (BlockIndex.cons 3 3 0x01010000 (BlockIndex.cons 2 2 0x01010000
        (BlockIndex.cons 1 1 0x01010000 (BlockIndex.genesis 0 0 0x01010000)))) 0
      (Params.mk 65535 150 1500 false false 3 1 1000000 1000000 0x01010000 3600) none =
      some 0 ∧
    setCompactValue 0 = 0 := by
  decide

/-- C3 (amended): for parameters with a positive `pow_limit` below
`2^256` and a tip all of whose blocks carry compact targets decoding
into `[1, pow_limit]`, every value `get_next_work` returns decodes to at
most `pow_limit`, and additionally to at least 1 whenever the ASERT
retargeter is dispatched (`h > asert_height`); the LWMA and BTC
retargeters have no floor and can return a compact decoding to 0. -/
theorem getNextWorkRequired_bounds (c : BlockIndex) (pt : Int) (params : Params)
    (cache : Option BlockIndex)
    (hP1 : 1 ≤ params.powLimit) (hP : params.powLimit < 2 ^ 256)
    (hbits : chainBitsOk params.powLimit c = true) :
    ∀ r, getNextWorkRequired c pt params cache = some r →
      setCompactValue r ≤ params.powLimit ∧
      (params.nASERTHeight < c.nHeight + 1 → 1 ≤ setCompactValue r) := by
  intro r hr
  have htip := chainBitsOk_nBits _ _ hbits
  simp only [getNextWorkRequired] at hr
  split at hr
  case isTrue h =>
    have hb := getNextWorkRequiredASERT_bounds c params cache hP1 hP htip.1 htip.2 r hr
    exact ⟨hb.2, fun _ => hb.1⟩
  case isFalse h =>
    refine ⟨?_, fun hh => absurd hh h⟩
    split at hr
    · exact getNextWorkRequiredLWMAv2_le c params hP htip.2 r hr
    · split at hr
      · exact getNextWorkRequiredLWMA_le c params hP htip.2 r hr
      · exact getNextWorkRequiredBTC_le c pt params hP hbits r hr

/-- C3 witness. -/
theorem getNextWorkRequired_bounds_witness :
    setCompactValue 0x01010000 ≤
      (Params.mk 65535 150 302400 false false 45 100 200 300 0x01010000 3600).powLimit ∧
    ((Params.mk 65535 150 302400 false false 45 100 200 300 0x01010000 3600).nASERTHeight <
        (BlockIndex.genesis 0 0 0x01010000).nHeight + 1 →
      1 ≤ setCompactValue 0x01010000) :=
  getNextWorkRequired_bounds (BlockIndex.genesis 0 0 0x01010000) 0
    (Params.mk 65535 150 302400 false false 45 100 200 300 0x01010000 3600) none
    (by decide) (by decide) (by decide) 0x01010000 (by decide)

/-- C5 counterexample: with `no_retargeting` set, `get_next_work` does
not always return the tip's bits.  On a BTC-dispatched non-boundary
height with `allow_min_difficulty_blocks` set and a candidate timestamp
more than `2T` past the tip, the testnet exception returns the encoded
`pow_limit` instead — the BTC retargeter consults `no_retargeting` only
on the boundary path. -/
theorem noRetargeting_counterexample :
    (Params.mk 8388608 1 10 true true 3 100 100 100 0x01010000 3600).fPowNoRetargeting = true ∧
    getNextWorkRequired (BlockIndex.genesis 5 0 0) 100
      (Params.mk 8388608 1 10 true true 3 100 100 100 0x01010000 3600) none =
      some 0x04008000 ∧
    some 0x04008000 ≠ some (BlockIndex.genesis 5 0 0).nBits := by
  decide

/-- C5 (amended): with `no_retargeting` set, `get_next_work` returns
`tip.compact_bits` whenever LWMA v1, LWMA v2 or ASERT is dispatched, and
for BTC at non-boundary heights with `allow_min_difficulty_blocks` clear
as well as at boundary heights whose parent walk succeeds; the BTC
testnet min-difficulty exception applies regardless of
`no_retargeting`. -/
theorem noRetargeting_returns_tip_bits (c : BlockIndex) (pt : Int) (params : Params)
    (cache : Option BlockIndex)
    (hn : params.fPowNoRetargeting = true)
    (hmd : c.nHeight + 1 < params.nLWMAHeight →
      (c.nHeight + 1).tmod (difficultyAdjustmentInterval params) ≠ 0 →
      params.fPowAllowMinDifficultyBlocks = false)
    (hw : c.nHeight + 1 < params.nLWMAHeight →
      (c.nHeight + 1).tmod (difficultyAdjustmentInterval params) = 0 →
      (walkBack c (btcBlocksToGoBack c params).toNat).isSome = true) :
    getNextWorkRequired c pt params cache = some c.nBits := by
  simp only [getNextWorkRequired]
  split_ifs with h1 h2 h3
  · simp [getNextWorkRequiredASERT, hn]
  · simp [getNextWorkRequiredLWMAv2, hn]
  · simp [getNextWorkRequiredLWMA, hn]
  · have hlt : c.nHeight + 1 < params.nLWMAHeight := by omega
    simp only [getNextWorkRequiredBTC]
    by_cases hb : (c.nHeight + 1).tmod (difficultyAdjustmentInterval params) ≠ 0
    · rw [if_pos hb, hmd hlt hb]
      simp
    · rw [if_neg hb]
      have hb0 : (c.nHeight + 1).tmod (difficultyAdjustmentInterval params) = 0 :=
        not_not.mp hb
      obtain ⟨first, hfst⟩ := Option.isSome_iff_exists.mp (hw hlt hb0)
      rw [hfst]
      simp only [Option.map_some', Option.some.injEq]
      simp [calculateNextWorkRequired, hn]

/-- C5 witness. -/
theorem noRetargeting_returns_tip_bits_witness :
    getNextWorkRequired (BlockIndex.genesis 5 7 0x01010000) 0
      (Params.mk 65535 150 302400 false true 45 0 0 0 0x01010000 3600) none =
      some (BlockIndex.genesis 5 7 0x01010000).nBits :=
  noRetargeting_returns_tip_bits (BlockIndex.genesis 5 7 0x01010000) 0
    (Params.mk 65535 150 302400 false true 45 0 0 0 0x01010000 3600) none
    (by decide) (fun h => absurd h (by decide)) (fun h => absurd h (by decide))

/-- C7: in the ASERT retargeter with `no_retargeting` clear and the
anchor (with parent) resolved, after the fractional factor has been
applied: `shifts ≥ 256` returns the encoded `pow_limit`; `shifts ≤ -256`
returns the encoded target 1; otherwise the target is shifted left by
`shifts` (positive, wrapping at 256 bits) or right by `-shifts`
(negative), a zero result is replaced by 1, and the result is clamped to
`pow_limit` before encoding. -/
theorem asert_integer_shift_branches (c : BlockIndex) (params : Params)
    (cache : Option BlockIndex) (a ap : BlockIndex)
    (hnr : params.fPowNoRetargeting = false)
    (ha : getASERTAnchorBlock c params cache = some a)
    (hp : a.pprev = some ap) :
    getNextWorkRequiredASERT c params cache =
      (let exponent := asertExponent (c.nTime - ap.nTime)
        (c.nHeight + 1 - params.nASERTHeight) params.nPowTargetSpacing params.nASERTHalfLife
       let shifts := (asertShiftsFrac exponent).1
       let nextTarget := setCompactValue params.nASERTAnchorBits *
          asertFactor (asertShiftsFrac exponent).2 % 2 ^ 256 / 2 ^ 16
       if 256 ≤ shifts then some (getCompact params.powLimit)
       else if shifts ≤ -256 then some (getCompact 1)
       else if 0 < shifts then
         some (getCompact (min (max (nextTarget * 2 ^ shifts.toNat % 2 ^ 256) 1) params.powLimit))
       else if shifts < 0 then
         some (getCompact (min (max (nextTarget / 2 ^ (-shifts).toNat) 1) params.powLimit))
       else some (getCompact (min (max nextTarget 1) params.powLimit))) := by
  simp only [getNextWorkRequiredASERT, hnr, Bool.false_ne_true, if_false, ha, hp,
    asertFinish_eq]
  split_ifs <;> first | rfl | omega | contradiction

/-- C7 witness. -/
theorem asert_integer_shift_branches_witness :
    getNextWorkRequiredASERT
      (BlockIndex.cons 1 150 0x0300ffff (BlockIndex.genesis 0 0 0x0300ffff))
      (Params.mk 65535 150 302400 false false 45 0 0 1 0x01030000 7200) none =
      some 0x01030000 := by
  rw [asert_integer_shift_branches
    (BlockIndex.cons 1 150 0x0300ffff (BlockIndex.genesis 0 0 0x0300ffff))
    (Params.mk 65535 150 302400 false false 45 0 0 1 0x01030000 7200) none
    (BlockIndex.cons 1 150 0x0300ffff (BlockIndex.genesis 0 0 0x0300ffff))
    (BlockIndex.genesis 0 0 0x0300ffff) (by decide) (by decide) (by decide)]
  decide

/-- C4 counterexample: the exact on-schedule chain does not always get
`asert_anchor_bits` back bit-for-bit.  With `asert_anchor_bits =
0x1a010000` (decoding to `2^200`) and `pow_limit = 65535`, a perfectly
scheduled tip at the anchor makes ASERT clamp to `pow_limit` and return
its encoding 0x0300ffff instead of the anchor bits. -/
theorem asert_on_schedule_counterexample :
    (Params.mk 65535 150 302400 false false 45 0 0 1 0x1a010000 3600).fPowNoRetargeting =
      false ∧
    getASERTAnchorBlock (BlockIndex.cons 1 150 0x0300ffff (BlockIndex.genesis 0 0 0x0300ffff))
      (Params.mk 65535 150 302400 false false 45 0 0 1 0x1a010000 3600) none =
      some (BlockIndex.cons 1 150 0x0300ffff (BlockIndex.genesis 0 0 0x0300ffff)) ∧
    (BlockIndex.cons 1 150 0x0300ffff (BlockIndex.genesis 0 0 0x0300ffff)).nTime -
        (BlockIndex.genesis 0 0 0x0300ffff).nTime =
      (Params.mk 65535 150 302400 false false 45 0 0 1 0x1a010000 3600).nPowTargetSpacing *
        ((BlockIndex.cons 1 150 0x0300ffff (BlockIndex.genesis 0 0 0x0300ffff)).nHeight + 1 -
          (Params.mk 65535 150 302400 false false 45 0 0 1 0x1a010000 3600).nASERTHeight) ∧
    getNextWorkRequiredASERT
      (BlockIndex.cons 1 150 0x0300ffff (BlockIndex.genesis 0 0 0x0300ffff))
      (Params.mk 65535 150 302400 false false 45 0 0 1 0x1a010000 3600) none =
      some 0x0300ffff ∧
    (0x0300ffff : Nat) ≠ 0x1a010000 := by
  decide

/-- C4 (amended): on a chain whose anchor (at `asert_height`, with a
parent) is resolved from an empty or matching cache, with
`no_retargeting` clear, a positive half-life, and the anchor's parent
exactly on schedule (`time_delta = T * height_delta`), the ASERT
retargeter returns `asert_anchor_bits` bit-for-bit — the fixed-point
exponent is 0, the decomposition is (0, 0) and the factor 65536 —
provided `asert_anchor_bits` decodes to a nonzero target at most
`pow_limit` and below `2^240` that round-trips through the encoder. -/
theorem asert_on_schedule_anchor_bits (c : BlockIndex) (params : Params)
    (cache : Option BlockIndex) (a ap : BlockIndex)
    (hnr : params.fPowNoRetargeting = false)
    (ha : getASERTAnchorBlock c params cache = some a)
    (hp : a.pprev = some ap)
    (ht : c.nTime - ap.nTime =
      params.nPowTargetSpacing * (c.nHeight + 1 - params.nASERTHeight))
    (hb0 : setCompactValue params.nASERTAnchorBits ≠ 0)
    (hble : setCompactValue params.nASERTAnchorBits ≤ params.powLimit)
    (hbsm : setCompactValue params.nASERTAnchorBits < 2 ^ 240)
    (hrt : getCompact (setCompactValue params.nASERTAnchorBits) = params.nASERTAnchorBits) :
    asertExponent (c.nTime - ap.nTime) (c.nHeight + 1 - params.nASERTHeight)
        params.nPowTargetSpacing params.nASERTHalfLife = 0 ∧
    asertShiftsFrac 0 = (0, 0) ∧ asertFactor 0 = 65536 ∧
    getNextWorkRequiredASERT c params cache = some params.nASERTAnchorBits := by
  have he : asertExponent (c.nTime - ap.nTime) (c.nHeight + 1 - params.nASERTHeight)
      params.nPowTargetSpacing params.nASERTHalfLife = 0 := by
    unfold asertExponent
    rw [ht, sub_self, zero_mul, Int.zero_tdiv]
  have hsf : asertShiftsFrac 0 = (0, 0) := by decide
  have hff : asertFactor 0 = 65536 := by decide
  refine ⟨he, hsf, hff, ?_⟩
  have hA : setCompactValue params.nASERTAnchorBits * 65536 < 2 ^ 256 := by
    calc setCompactValue params.nASERTAnchorBits * 65536 < 2 ^ 240 * 65536 :=
          Nat.mul_lt_mul_of_lt_of_le hbsm le_rfl (by norm_num)
      _ = 2 ^ 256 := by norm_num
  simp only [getNextWorkRequiredASERT, hnr, ha, hp, he, hsf, hff]
  norm_num
  norm_num at hA
  rw [Nat.mod_eq_of_lt hA,
    Nat.mul_div_cancel _ (by norm_num : (0 : Nat) < 65536)]
  rw [asertFinish_eq]
  have h1 : max (setCompactValue params.nASERTAnchorBits) 1 =
      setCompactValue params.nASERTAnchorBits := by omega
  have h2 : min (setCompactValue params.nASERTAnchorBits) params.powLimit =
      setCompactValue params.nASERTAnchorBits := by omega
  rw [h1, h2, hrt]

/-- C4 witness. -/
theorem asert_on_schedule_anchor_bits_witness :
    asertExponent
        ((BlockIndex.cons 1 150 0x0300ffff (BlockIndex.genesis 0 0 0x0300ffff)).nTime -
          (BlockIndex.genesis 0 0 0x0300ffff).nTime)
        ((BlockIndex.cons 1 150 0x0300ffff (BlockIndex.genesis 0 0 0x0300ffff)).nHeight + 1 -
          (Params.mk 65535 150 302400 false false 45 0 0 1 0x01020000 3600).nASERTHeight)
        (Params.mk 65535 150 302400 false false 45 0 0 1 0x01020000 3600).nPowTargetSpacing
        (Params.mk 65535 150 302400 false false 45 0 0 1 0x01020000 3600).nASERTHalfLife = 0 ∧
    asertShiftsFrac 0 = (0, 0) ∧ asertFactor 0 = 65536 ∧
    getNextWorkRequiredASERT
      (BlockIndex.cons 1 150 0x0300ffff (BlockIndex.genesis 0 0 0x0300ffff))
      (Params.mk 65535 150 302400 false false 45 0 0 1 0x01020000 3600) none =
      some (Params.mk 65535 150 302400 false false 45 0 0 1 0x01020000 3600).nASERTAnchorBits :=
  asert_on_schedule_anchor_bits
    (BlockIndex.cons 1 150 0x0300ffff (BlockIndex.genesis 0 0 0x0300ffff))
    (Params.mk 65535 150 302400 false false 45 0 0 1 0x01020000 3600) none
    (BlockIndex.cons 1 150 0x0300ffff (BlockIndex.genesis 0 0 0x0300ffff))
    (BlockIndex.genesis 0 0 0x0300ffff)
    (by decide) (by decide) (by decide) (by decide) (by decide) (by decide) (by decide)
    (by decide)

/-- C9: at a BTC retarget boundary (`h = tip.height + 1` divisible by
the interval `k = timespan / T`), on a well-formed chain the retargeter
walks back exactly `k - 1` parents when `h = k` (first retarget after
genesis) and exactly `k` parents otherwise, lands on the block exactly
that many heights below the tip, and feeds that block's time into the
timespan computation — reproducing the upstream off-by-one exactly. -/
theorem btc_retarget_walkback (c : BlockIndex) (pt : Int) (params : Params)
    (hc : chainOk c = true)
    (hk : 0 < difficultyAdjustmentInterval params)
    (hb : (c.nHeight + 1).tmod (difficultyAdjustmentInterval params) = 0) :
    ∃ first, walkBack c (btcBlocksToGoBack c params).toNat = some first ∧
      first.nHeight = c.nHeight - btcBlocksToGoBack c params ∧
      getNextWorkRequiredBTC c pt params =
        some (calculateNextWorkRequired c first.nTime params) ∧
      btcBlocksToGoBack c params =
        (if c.nHeight + 1 = difficultyAdjustmentInterval params
         then difficultyAdjustmentInterval params - 1
         else difficultyAdjustmentInterval params) := by
  have hh0 : 0 ≤ c.nHeight := chainOk_height_nonneg c hc
  have hdvd : difficultyAdjustmentInterval params ∣ (c.nHeight + 1) :=
    Int.dvd_of_tmod_eq_zero hb
  have hk_le : difficultyAdjustmentInterval params ≤ c.nHeight + 1 :=
    Int.le_of_dvd (by omega) hdvd
  have hsteps : btcBlocksToGoBack c params =
      (if c.nHeight + 1 = difficultyAdjustmentInterval params
       then difficultyAdjustmentInterval params - 1
       else difficultyAdjustmentInterval params) := by
    simp only [btcBlocksToGoBack]
    split_ifs with h1 h2 <;> first | rfl | omega
  have hge : 0 ≤ btcBlocksToGoBack c params := by rw [hsteps]; split_ifs <;> omega
  have hle : btcBlocksToGoBack c params ≤ c.nHeight := by
    rw [hsteps]; split_ifs with h1 <;> omega
  obtain ⟨first, hw, hht, _⟩ := walkBack_chainOk c hc (btcBlocksToGoBack c params).toNat
    (by rw [Int.toNat_of_nonneg hge]; exact hle)
  refine ⟨first, hw, ?_, ?_, hsteps⟩
  · rw [hht, Int.toNat_of_nonneg hge]
  · simp only [getNextWorkRequiredBTC]
    rw [if_neg (fun hcon => hcon hb), hw]
    simp

/-- C9 witness: a ten-block chain with interval 10, at the first
retarget after genesis. -/
theorem btc_retarget_walkback_witness :
    ∃ first,
      walkBack
        (BlockIndex.cons 9 1350 0x01100000 (BlockIndex.cons 8 1200 0x01100000
          (BlockIndex.cons 7 1050 0x01100000 (BlockIndex.cons 6 900 0x01100000
          (BlockIndex.cons 5 750 0x01100000 (BlockIndex.cons 4 600 0x01100000
          (BlockIndex.cons 3 450 0x01100000 (BlockIndex.cons 2 300 0x01100000
          (BlockIndex.cons 1 150 0x01100000 (BlockIndex.genesis 0 0 0x01100000))))))))))
        (btcBlocksToGoBack
          (BlockIndex.cons 9 1350 0x01100000 (BlockIndex.cons 8 1200 0x01100000
            (BlockIndex.cons 7 1050 0x01100000 (BlockIndex.cons 6 900 0x01100000
            (BlockIndex.cons 5 750 0x01100000 (BlockIndex.cons 4 600 0x01100000
            (BlockIndex.cons 3 450 0x01100000 (BlockIndex.cons 2 300 0x01100000
            (BlockIndex.cons 1 150 0x01100000 (BlockIndex.genesis 0 0 0x01100000))))))))))
          (Params.mk 65535 150 1500 false false 45 10000 10000 10000 0x01100000 3600)).toNat =
        some first ∧
      first.nHeight =
        (BlockIndex.cons 9 1350 0x01100000 (BlockIndex.cons 8 1200 0x01100000
          (BlockIndex.cons 7 1050 0x01100000 (BlockIndex.cons 6 900 0x01100000
          (BlockIndex.cons 5 750 0x01100000 (BlockIndex.cons 4 600 0x01100000
          (BlockIndex.cons 3 450 0x01100000 (BlockIndex.cons 2 300 0x01100000
          (BlockIndex.cons 1 150 0x01100000 (BlockIndex.genesis 0 0 0x01100000)))))))))).nHeight -
          btcBlocksToGoBack
            (BlockIndex.cons 9 1350 0x01100000 (BlockIndex.cons 8 1200 0x01100000
              (BlockIndex.cons 7 1050 0x01100000 (BlockIndex.cons 6 900 0x01100000
              (BlockIndex.cons 5 750 0x01100000 (BlockIndex.cons 4 600 0x01100000
              (BlockIndex.cons 3 450 0x01100000 (BlockIndex.cons 2 300 0x01100000
              (BlockIndex.cons 1 150 0x01100000 (BlockIndex.genesis 0 0 0x01100000))))))))))
            (Params.mk 65535 150 1500 false false 45 10000 10000 10000 0x01100000 3600) ∧
      getNextWorkRequiredBTC
        (BlockIndex.cons 9 1350 0x01100000 (BlockIndex.cons 8 1200 0x01100000
          (BlockIndex.cons 7 1050 0x01100000 (BlockIndex.cons 6 900 0x01100000
          (BlockIndex.cons 5 750 0x01100000 (BlockIndex.cons 4 600 0x01100000
          (BlockIndex.cons 3 450 0x01100000 (BlockIndex.cons 2 300 0x01100000
          (BlockIndex.cons 1 150 0x01100000 (BlockIndex.genesis 0 0 0x01100000)))))))))) 0
        (Params.mk 65535 150 1500 false false 45 10000 10000 10000 0x01100000 3600) =
        some (calculateNextWorkRequired
          (BlockIndex.cons 9 1350 0x01100000 (BlockIndex.cons 8 1200 0x01100000
            (BlockIndex.cons 7 1050 0x01100000 (BlockIndex.cons 6 900 0x01100000
            (BlockIndex.cons 5 750 0x01100000 (BlockIndex.cons 4 600 0x01100000
            (BlockIndex.cons 3 450 0x01100000 (BlockIndex.cons 2 300 0x01100000
            (BlockIndex.cons 1 150 0x01100000 (BlockIndex.genesis 0 0 0x01100000))))))))))
          first.nTime
          (Params.mk 65535 150 1500 false false 45 10000 10000 10000 0x01100000 3600)) ∧
      btcBlocksToGoBack
        (BlockIndex.cons 9 1350 0x01100000 (BlockIndex.cons 8 1200 0x01100000
          (BlockIndex.cons 7 1050 0x01100000 (BlockIndex.cons 6 900 0x01100000
          (BlockIndex.cons 5 750 0x01100000 (BlockIndex.cons 4 600 0x01100000
          (BlockIndex.cons 3 450 0x01100000 (BlockIndex.cons 2 300 0x01100000
          (BlockIndex.cons 1 150 0x01100000 (BlockIndex.genesis 0 0 0x01100000))))))))))
        (Params.mk 65535 150 1500 false false 45 10000 10000 10000 0x01100000 3600) =
        (if (BlockIndex.cons 9 1350 0x01100000 (BlockIndex.cons 8 1200 0x01100000
            (BlockIndex.cons 7 1050 0x01100000 (BlockIndex.cons 6 900 0x01100000
            (BlockIndex.cons 5 750 0x01100000 (BlockIndex.cons 4 600 0x01100000
            (BlockIndex.cons 3 450 0x01100000 (BlockIndex.cons 2 300 0x01100000
            (BlockIndex.cons 1 150 0x01100000
              (BlockIndex.genesis 0 0 0x01100000)))))))))).nHeight + 1 =
            difficultyAdjustmentInterval
              (Params.mk 65535 150 1500 false false 45 10000 10000 10000 0x01100000 3600)
         then difficultyAdjustmentInterval
            (Params.mk 65535 150 1500 false false 45 10000 10000 10000 0x01100000 3600) - 1
         else difficultyAdjustmentInterval
            (Params.mk 65535 150 1500 false false 45 10000 10000 10000 0x01100000 3600)) :=
  btc_retarget_walkback
    (BlockIndex.cons 9 1350 0x01100000 (BlockIndex.cons 8 1200 0x01100000
      (BlockIndex.cons 7 1050 0x01100000 (BlockIndex.cons 6 900 0x01100000
      (BlockIndex.cons 5 750 0x01100000 (BlockIndex.cons 4 600 0x01100000
      (BlockIndex.cons 3 450 0x01100000 (BlockIndex.cons 2 300 0x01100000
      (BlockIndex.cons 1 150 0x01100000 (BlockIndex.genesis 0 0 0x01100000)))))))))) 0
    (Params.mk 65535 150 1500 false false 45 10000 10000 10000 0x01100000 3600)
    (by decide) (by decide) (by decide)

/-- C8 counterexample, refuting both halves of the claim on concrete
all-unit-solvetime windows of three usable blocks.  Scenario A
(`T = 1`): the weighted sum stays 6, it is not clamped to
`expected/10 = 0`.  Scenario B (`T = 11`, previous target 10): the
clamp equals `expected/10 = 6` but the returned compact is 0, decoding
to 0, strictly below `prev_target / 10 = 1`. -/
theorem lwma_fast_cap_counterexample :
    (windowSolvetimesOne (BlockIndex.cons 3 3 0x010A0000 (BlockIndex.cons 2 2 0x010A0000
        (BlockIndex.cons 1 1 0x010A0000 (BlockIndex.genesis 0 0 0x010A0000)))) 3 = true ∧
      lwmaClampSum
        (lwmaSums 1 (BlockIndex.cons 3 3 0x010A0000 (BlockIndex.cons 2 2 0x010A0000
          (BlockIndex.cons 1 1 0x010A0000 (BlockIndex.genesis 0 0 0x010A0000)))) 3).1
        ((lwmaSums 1 (BlockIndex.cons 3 3 0x010A0000 (BlockIndex.cons 2 2 0x010A0000
          (BlockIndex.cons 1 1 0x010A0000 (BlockIndex.genesis 0 0 0x010A0000)))) 3).2 * 1) ≠
      ((lwmaSums 1 (BlockIndex.cons 3 3 0x010A0000 (BlockIndex.cons 2 2 0x010A0000
        (BlockIndex.cons 1 1 0x010A0000 (BlockIndex.genesis 0 0 0x010A0000)))) 3).2 * 1).tdiv
        10) ∧
    (windowSolvetimesOne (BlockIndex.cons 3 3 0x010A0000 (BlockIndex.cons 2 2 0x010A0000
        (BlockIndex.cons 1 1 0x010A0000 (BlockIndex.genesis 0 0 0x010A0000)))) 3 = true ∧
      getNextWorkRequiredLWMA
        (BlockIndex.cons 3 3 0x010A0000 (BlockIndex.cons 2 2 0x010A0000
          (BlockIndex.cons 1 1 0x010A0000 (BlockIndex.genesis 0 0 0x010A0000))))
        (Params.mk 65535 11 110 false false 3 1 1000000 1000000 0x010A0000 3600) = some 0 ∧
      setCompactValue 0 <
        setCompactValue (BlockIndex.cons 3 3 0x010A0000 (BlockIndex.cons 2 2 0x010A0000
          (BlockIndex.cons 1 1 0x010A0000 (BlockIndex.genesis 0 0 0x010A0000)))).nBits / 10) := by
  decide

/-- C8 (amended): for an LWMA v1 invocation with at least 3 usable
window blocks, every solvetime equal to 1 second, and
`pow_target_spacing` a positive multiple of 10 (so the 10x cap divides
exactly): the weighted-solvetime sum is clamped to `expected/10`, the
returned compact is the encoding of `prev_target / 10` exactly (given
the products stay in range and the tip target is at most `pow_limit`),
and it decodes to at least `(prev_target / 10) / 2` — the halving
accounts for worst-case truncation by the compact encoder. -/
theorem lwma_fast_chain_cap (c : BlockIndex) (params : Params) (nn : Nat)
    (hnn : (nn : Int) = min params.nLWMAWindow (c.nHeight + 1 - params.nLWMAHeight))
    (hnr : params.fPowNoRetargeting = false)
    (hT10 : (10 : Int) ∣ params.nPowTargetSpacing)
    (hTpos : 0 < params.nPowTargetSpacing)
    (hblocks : 3 ≤ nn)
    (hsolve : windowSolvetimesOne c nn = true)
    (hP : params.powLimit < 2 ^ 256)
    (hprev : setCompactValue c.nBits ≤ params.powLimit)
    (hE64 : (triNat nn : Int) * params.nPowTargetSpacing < 2 ^ 64)
    (hwrap : setCompactValue c.nBits *
      (((triNat nn : Int) * params.nPowTargetSpacing).tdiv 10).toNat < 2 ^ 256) :
    lwmaClampSum (lwmaSums params.nPowTargetSpacing c nn).1
        ((lwmaSums params.nPowTargetSpacing c nn).2 * params.nPowTargetSpacing) =
      ((lwmaSums params.nPowTargetSpacing c nn).2 * params.nPowTargetSpacing).tdiv 10 ∧
    getNextWorkRequiredLWMA c params = some (getCompact (setCompactValue c.nBits / 10)) ∧
    setCompactValue c.nBits / 10 / 2 ≤
      setCompactValue (getCompact (setCompactValue c.nBits / 10)) := by
  obtain ⟨m, hm⟩ := hT10
  have hmpos : 0 < m := by omega
  have hs := lwmaSums_ones params.nPowTargetSpacing (by omega) nn c hsolve
  set T := params.nPowTargetSpacing with hTdef
  set s : Int := (triNat nn : Int) with hsdef
  have h6 : 6 ≤ triNat nn := triNat_ge nn hblocks
  have hspos : (0 : Int) < s := by simp only [hsdef]; push_cast; omega
  have hEdvd : s * T = 10 * (s * m) := by rw [hm]; ring
  have htdiv : (s * T).tdiv 10 = s * m := by
    rw [hEdvd]; exact Int.mul_tdiv_cancel_left _ (by norm_num)
  have hppos : (0 : Int) < s * m := mul_pos hspos hmpos
  have hsle : s ≤ s * m := by
    calc s = s * 1 := (mul_one s).symm
      _ ≤ s * m := mul_le_mul_of_nonneg_left (by omega) (by omega)
  have htdiv10 : (10 * (s * m)).tdiv 10 = s * m := Int.mul_tdiv_cancel_left _ (by norm_num)
  have hclamp0 : lwmaClampSum s (s * T) = s * m := by
    simp only [lwmaClampSum, hEdvd, htdiv10]
    split_ifs <;> omega
  have hEpos : (0 : Int) < s * T := mul_pos hspos hTpos
  have hE64' : s * T < 2 ^ 64 := hE64
  have huE : toUInt64 (s * T) = (s * T).toNat := by
    unfold toUInt64
    rw [Int.emod_eq_of_lt (by omega) (by norm_num at hE64' ⊢; omega)]
  have huEne : ¬ toUInt64 (s * T) = 0 := by rw [huE]; omega
  have hup : toUInt64 (s * m) = (s * m).toNat := by
    unfold toUInt64
    rw [Int.emod_eq_of_lt (by omega) (by norm_num at hE64' ⊢; omega)]
  have hq10 : (s * T).toNat = 10 * (s * m).toNat := by omega
  have hpN : 0 < (s * m).toNat := by omega
  have hwrap' : setCompactValue c.nBits * (s * m).toNat < 2 ^ 256 := by
    rw [htdiv] at hwrap; exact hwrap
  have hb3 : ¬ min params.nLWMAWindow (c.nHeight + 1 - params.nLWMAHeight) < 3 := by
    rw [← hnn]; push_cast; omega
  have hton : (min params.nLWMAWindow (c.nHeight + 1 - params.nLWMAHeight)).toNat = nn := by
    rw [← hnn]; exact Int.toNat_natCast nn
  have hdivq : setCompactValue c.nBits * (s * m).toNat % 2 ^ 256 / (s * T).toNat =
      setCompactValue c.nBits / 10 := by
    rw [Nat.mod_eq_of_lt hwrap', hq10]
    exact Nat.mul_div_mul_right _ _ hpN
  have hnoclamp : ¬ setCompactValue c.nBits / 10 > params.powLimit := by
    have := Nat.div_le_self (setCompactValue c.nBits) 10
    omega
  refine ⟨?_, ?_, ?_⟩
  · rw [hs]
    show lwmaClampSum s (s * T) = (s * T).tdiv 10
    rw [htdiv]
    exact hclamp0
  · simp only [getNextWorkRequiredLWMA, hnr, Bool.false_ne_true, if_false, if_neg hb3,
      hton, hs]
    simp only [← hTdef, hclamp0, hup, huE, huEne, if_false, hdivq, if_neg hnoclamp]
    rw [if_neg Bool.false_ne_true, if_neg (show ¬ (s * T).toNat = 0 by omega)]
  · exact setCompactValue_getCompact_half _ (by
      have := Nat.div_le_self (setCompactValue c.nBits) 10
      omega)

/-- C8 witness: window 3, `T = 10`, tip target 100; the sum is clamped
to `expected/10 = 6`, the result encodes `100 / 10 = 10`, and the
decoded result `10` is at least `(100 / 10) / 2 = 5`. -/
theorem lwma_fast_chain_cap_witness :
    lwmaClampSum
        (lwmaSums
          (Params.mk 65535 10 100 false false 3 1 1000000 1000000 0x01640000 3600).nPowTargetSpacing
          (BlockIndex.cons 3 3 0x01640000 (BlockIndex.cons 2 2 0x01640000
            (BlockIndex.cons 1 1 0x01640000 (BlockIndex.genesis 0 0 0x01640000)))) 3).1
        ((lwmaSums
          (Params.mk 65535 10 100 false false 3 1 1000000 1000000 0x01640000 3600).nPowTargetSpacing
          (BlockIndex.cons 3 3 0x01640000 (BlockIndex.cons 2 2 0x01640000
            (BlockIndex.cons 1 1 0x01640000 (BlockIndex.genesis 0 0 0x01640000)))) 3).2 *
          (Params.mk 65535 10 100 false false 3 1 1000000 1000000 0x01640000 3600).nPowTargetSpacing) =
      ((lwmaSums
          (Params.mk 65535 10 100 false false 3 1 1000000 1000000 0x01640000 3600).nPowTargetSpacing
          (BlockIndex.cons 3 3 0x01640000 (BlockIndex.cons 2 2 0x01640000
            (BlockIndex.cons 1 1 0x01640000 (BlockIndex.genesis 0 0 0x01640000)))) 3).2 *
          (Params.mk 65535 10 100 false false 3 1 1000000 1000000 0x01640000 3600).nPowTargetSpacing).tdiv
        10 ∧
    getNextWorkRequiredLWMA
        (BlockIndex.cons 3 3 0x01640000 (BlockIndex.cons 2 2 0x01640000
          (BlockIndex.cons 1 1 0x01640000 (BlockIndex.genesis 0 0 0x01640000))))
        (Params.mk 65535 10 100 false false 3 1 1000000 1000000 0x01640000 3600) =
      some (getCompact (setCompactValue
        (BlockIndex.cons 3 3 0x01640000 (BlockIndex.cons 2 2 0x01640000
          (BlockIndex.cons 1 1 0x01640000 (BlockIndex.genesis 0 0 0x01640000)))).nBits / 10)) ∧
    setCompactValue (BlockIndex.cons 3 3 0x01640000 (BlockIndex.cons 2 2 0x01640000
        (BlockIndex.cons 1 1 0x01640000 (BlockIndex.genesis 0 0 0x01640000)))).nBits / 10 / 2 ≤
      setCompactValue (getCompact (setCompactValue
        (BlockIndex.cons 3 3 0x01640000 (BlockIndex.cons 2 2 0x01640000
          (BlockIndex.cons 1 1 0x01640000 (BlockIndex.genesis 0 0 0x01640000)))).nBits / 10)) :=
  lwma_fast_chain_cap
    (BlockIndex.cons 3 3 0x01640000 (BlockIndex.cons 2 2 0x01640000
      (BlockIndex.cons 1 1 0x01640000 (BlockIndex.genesis 0 0 0x01640000))))
    (Params.mk 65535 10 100 false false 3 1 1000000 1000000 0x01640000 3600) 3
    (by decide) (by decide) (by decide) (by decide) (by decide) (by decide) (by decide)
    (by decide) (by decide) (by decide)

/-- C10 witness. -/
theorem asert_cubic_no_overflow_witness :
    195766423245049 * 1 + 971821376 * 1 ^ 2 + 5127 * 1 ^ 3 + 2 ^ 47 < 2 ^ 64 ∧
    asertFactor 1 =
      65536 + (195766423245049 * 1 + 971821376 * 1 ^ 2 + 5127 * 1 ^ 3 + 2 ^ 47) / 2 ^ 48 ∧
    asertFactor 1 < 131072 :=
  asert_cubic_no_overflow 1 (by decide) (by decide)
